import Mathlib

/-!
Verification of the orchestrator core against its specification.

The definitions below are a shallow embedding of the TypeScript sources:
`src/state.ts` (phase state machine and state store), `src/blocking.ts`
(question/response store), `src/agents/base.ts` (process supervisor),
`src/agents/dev.ts` (session scheduler) and the orchestration driver.

Strings are modelled through their underlying character lists (`String.data`),
so every operation is executable and provable by computation.  JavaScript
`Array.prototype.sort` is stable (ECMAScript 2019), and a stable sort by a
total preorder is unique, so it is modelled by insertion sort.  Node's
`ChildProcess` is modelled from its documented semantics where the code
depends on it (the `killed` flag is set only when `kill()` successfully sends
a signal, not when the child exits on its own).
-/

namespace Orch

/-! ### Character-list string helpers (JS semantics) -/

/-- JS `String.prototype.startsWith` on character lists. -/
def listPre : List Char → List Char → Bool
  | [], _ => true
  | _ :: _, [] => false
  | a :: as, b :: bs => a == b && listPre as bs

/-- JS `String.prototype.includes` (contiguous substring) on character lists. -/
def listSub (p : List Char) : List Char → Bool
  | [] => p.isEmpty
  | c :: cs => listPre p (c :: cs) || listSub p cs

/-- JS `String.prototype.endsWith` on character lists. -/
def listSuf (p s : List Char) : Bool := listPre p.reverse s.reverse

/-- Whitespace as used by JS `trim` / `\s` on the ASCII range. -/
def isWs (c : Char) : Bool := c == ' ' || c == '\t' || c == '\n' || c == '\r'

/-- Drop leading whitespace. -/
def trimLeft (cs : List Char) : List Char := cs.dropWhile isWs

/-- Drop trailing whitespace. -/
def trimRight (cs : List Char) : List Char := (cs.reverse.dropWhile isWs).reverse

/-- JS `String.prototype.trim` on character lists. -/
def trimChars (cs : List Char) : List Char := trimRight (trimLeft cs)

/-- JS `String.prototype.trim`. -/
def trimStr (s : String) : String := ⟨trimChars s.data⟩

/-- JS `String.prototype.toLowerCase` (ASCII range). -/
def lowerStr (s : String) : String := ⟨s.data.map Char.toLower⟩

/-- JS `a.startsWith(p)`. -/
def strStarts (s p : String) : Bool := listPre p.data s.data

/-- JS `a.endsWith(p)`. -/
def strEnds (s p : String) : Bool := listSuf p.data s.data

/-- JS `a.includes(p)`. -/
def strIncludes (s p : String) : Bool := listSub p.data s.data

/-- JS `s.split("\n")`. -/
def splitNl (s : String) : List String := (s.data.splitOn '\n').map List.asString

/-- JS `lines.join("\n")`. -/
def joinNl (ls : List String) : String := ⟨List.intercalate ['\n'] (ls.map String.data)⟩

/-- Strict lexicographic order on filenames (used only to state the
tie-breaking clause of the specification). -/
def lexLt : List Char → List Char → Bool
  | [], [] => false
  | [], _ :: _ => true
  | _ :: _, [] => false
  | a :: as, b :: bs => a < b || (a == b && lexLt as bs)

/-! ### Phase state machine — `src/state.ts` -/

/-- The orchestration phases (`src/types.ts`). -/
inductive Phase where
  | init
  | po_conversation
  | tech_lead_design
  | dev_sessions
  | completed
deriving DecidableEq, BEq, Fintype

/-- `VALID_TRANSITIONS` from `src/state.ts`: each phase maps to the phases it
can transition to. -/
def VALID_TRANSITIONS : Phase → List Phase
  | .init => [.po_conversation]
  | .po_conversation => [.tech_lead_design]
  | .tech_lead_design => [.dev_sessions]
  | .dev_sessions => [.completed]
  | .completed => []

/-- Agent kinds that can be recorded as blocked (`src/types.ts`). -/
inductive AgentType where
  | po
  | tech_lead
  | dev
deriving DecidableEq, BEq

/-- Recipients of a blocking question (`QuestionRecipient` in
`src/blocking.ts`; also the `waitingFor` field of `BlockedState`). -/
inductive Recipient where
  | user
  | po
  | tech_lead
deriving DecidableEq, BEq

/-- `BlockedState` from `src/types.ts`. -/
structure BlockedSt where
  isBlocked : Bool
  blockedAgent : Option AgentType
  questionFile : Option String
  waitingFor : Option Recipient
deriving DecidableEq

/-- Dev session status (`src/types.ts`). -/
inductive SessionStatus where
  | pending
  | running
  | blocked
  | completed
deriving DecidableEq, BEq

/-- `DevSession` from `src/types.ts`. -/
structure DevSession where
  area : String
  tickets : List Int
  status : SessionStatus
deriving DecidableEq

/-- The root `State` aggregate from `src/types.ts`. -/
structure OState where
  phase : Phase
  blocked : BlockedSt
  devSessions : List DevSession
  currentAgent : Option String
  lastUpdated : String
deriving DecidableEq

/-- `createInitialState` from `src/state.ts`; `now` models
`new Date().toISOString()`. -/
def createInitialState (now : String) : OState :=
  { phase := .init
    blocked := { isBlocked := false, blockedAgent := none,
                 questionFile := none, waitingFor := none }
    devSessions := []
    currentAgent := none
    lastUpdated := now }

/-- `isValidTransition` from `src/state.ts`. -/
def isValidTransition (from_ to_ : Phase) : Bool :=
  (VALID_TRANSITIONS from_).contains to_

/-- `transitionPhase` from `src/state.ts`; a thrown `StateError` is modelled
as `Except.error` carrying the message. -/
def transitionPhase (state : OState) (newPhase : Phase) (now : String) :
    Except String OState :=
  if isValidTransition state.phase newPhase then
    .ok { state with phase := newPhase, lastUpdated := now }
  else
    .error "Invalid phase transition"

/-- The unique successor of a phase in the fixed order of the specification
(`init -> po_conversation -> tech_lead_design -> dev_sessions -> completed`).
Transcribed from the specification, for comparison with `isValidTransition`. -/
def nextPhase : Phase → Option Phase
  | .init => some .po_conversation
  | .po_conversation => some .tech_lead_design
  | .tech_lead_design => some .dev_sessions
  | .dev_sessions => some .completed
  | .completed => none

/-- C1: `isValidTransition from to` is true iff `to` is the unique successor
of `from` in the fixed phase order; `completed` has no valid successor; and
`transitionPhase` errors exactly when the transition is invalid, otherwise
returning a state whose phase is the new phase. -/
theorem c1_phase_transitions :
    (∀ f t : Phase, isValidTransition f t = true ↔ nextPhase f = some t) ∧
    (∀ t : Phase, isValidTransition Phase.completed t = false) ∧
    (∀ (s : OState) (p : Phase) (now : String),
      ((∃ e, transitionPhase s p now = Except.error e) ↔
        isValidTransition s.phase p = false) ∧
      (∀ s₂, transitionPhase s p now = Except.ok s₂ → s₂.phase = p)) := by
  refine ⟨by decide, by decide, fun s p now => ⟨⟨?_, ?_⟩, ?_⟩⟩
  · rintro ⟨e, he⟩
    by_contra hv
    simp only [Bool.not_eq_false] at hv
    simp [transitionPhase, hv] at he
  · intro hv
    exact ⟨"Invalid phase transition", by simp [transitionPhase, hv]⟩
  · intro s₂ h
    unfold transitionPhase at h
    by_cases hv : isValidTransition s.phase p
    · simp only [hv, if_pos] at h
      cases h
      rfl
    · simp [hv] at h

/-- Witness for C1 at concrete inputs. -/
theorem c1_phase_transitions_witness :
    isValidTransition .init .po_conversation = true ∧
    (∃ e, transitionPhase (createInitialState "t0") .tech_lead_design "t1" =
      Except.error e) :=
  ⟨(c1_phase_transitions.1 .init .po_conversation).mpr rfl,
    ((c1_phase_transitions.2.2 (createInitialState "t0") .tech_lead_design "t1").1).mpr
      (by decide)⟩

/-! ### Process supervisor outcome — `src/agents/base.ts` -/

/-- `AgentResult` from `src/agents/base.ts`. -/
structure AgentResult where
  exitCode : Int
  stdout : String
  stderr : String
  killed : Bool
deriving DecidableEq

/-- `EXIT_CODES` from `src/blocking.ts`. -/
def EXIT_SUCCESS : Int := 0

/-- `EXIT_CODES.ERROR`. -/
def EXIT_ERROR : Int := 1

/-- `EXIT_CODES.BLOCKED`. -/
def EXIT_BLOCKED : Int := 2

/-- `isBlockedExitCode` from `src/blocking.ts`. -/
def isBlockedExitCode (exitCode : Int) : Bool := exitCode == EXIT_BLOCKED

/-- `isSuccessExitCode` from `src/blocking.ts`. -/
def isSuccessExitCode (exitCode : Int) : Bool := exitCode == EXIT_SUCCESS

/-- `isErrorExitCode` from `src/blocking.ts`. -/
def isErrorExitCode (exitCode : Int) : Bool := exitCode == EXIT_ERROR

/-- `isSuccess` from `src/agents/base.ts`. -/
def isSuccess (result : AgentResult) : Bool := result.exitCode == EXIT_SUCCESS

/-- `isBlocked` from `src/agents/base.ts`. -/
def isBlocked (result : AgentResult) : Bool := result.exitCode == EXIT_BLOCKED

/-- `isError` from `src/agents/base.ts`. -/
def isError (result : AgentResult) : Bool := result.exitCode == EXIT_ERROR

/-- JS truthiness of a nullable string (`signal ? 1 : 0`). -/
def truthyStr : Option String → Bool
  | none => false
  | some s => !(s == "")

/-- The `close` event handler of `spawnAgent` (`src/agents/base.ts`):
`exitCode = code ?? (signal ? 1 : 0)` and
`killed = childProcess.killed || signal !== null`.  `childKilled` is the
`ChildProcess.killed` flag at the time the event fires. -/
def closeEvent (code : Option Int) (signal : Option String)
    (stdout stderr : String) (childKilled : Bool) : AgentResult :=
  { exitCode := code.getD (if truthyStr signal then 1 else 0)
    stdout := stdout
    stderr := stderr
    killed := childKilled || signal.isSome }

/-- C10: when the child terminates due to a signal (the close event reports a
null exit code and a signal name), the resolved `AgentResult` has
`exitCode = 1` and `killed = true`, so it is classified as an error and never
as success or blocked. -/
theorem c10_signal_close_is_killed_error
    (sig stdout stderr : String) (childKilled : Bool) (hsig : sig ≠ "") :
    (closeEvent none (some sig) stdout stderr childKilled).exitCode = 1 ∧
    (closeEvent none (some sig) stdout stderr childKilled).killed = true ∧
    isError (closeEvent none (some sig) stdout stderr childKilled) = true ∧
    isSuccess (closeEvent none (some sig) stdout stderr childKilled) = false ∧
    isBlocked (closeEvent none (some sig) stdout stderr childKilled) = false := by
  simp [closeEvent, truthyStr, hsig, isError, isSuccess, isBlocked,
    EXIT_ERROR, EXIT_SUCCESS, EXIT_BLOCKED]

/-- Witness for C10 at a concrete signal. -/
theorem c10_signal_close_is_killed_error_witness :
    ("SIGTERM" : String) ≠ "" ∧
    (closeEvent none (some "SIGTERM") "" "" false).exitCode = 1 ∧
    (closeEvent none (some "SIGTERM") "" "" false).killed = true ∧
    isError (closeEvent none (some "SIGTERM") "" "" false) = true :=
  ⟨by decide,
    (c10_signal_close_is_killed_error "SIGTERM" "" "" false (by decide)).1,
    (c10_signal_close_is_killed_error "SIGTERM" "" "" false (by decide)).2.1,
    (c10_signal_close_is_killed_error "SIGTERM" "" "" false (by decide)).2.2.1⟩

/-! ### Question file parser — `src/blocking.ts` -/

/-- `ParsedQuestion` from `src/blocking.ts`. -/
structure ParsedQuestion where
  filePath : String
  fromAgent : String
  forRecipient : Recipient
  context : String
  question : String
  options : List String
  rawContent : String
deriving DecidableEq

/-- Case-insensitive prefix test on character lists (a regex literal under
the `i` flag). -/
def ciPre : List Char → List Char → Bool
  | [], _ => true
  | _ :: _, [] => false
  | a :: as, b :: bs => a.toLower == b.toLower && ciPre as bs

/-- The literal of the `/^#\s*Question from:\s*(.+)$/i` regex. -/
def qFromLit : List Char := "question from:".data

/-- The literal of the `/^##\s*For:\s*(.+)$/i` regex. -/
def forLit : List Char := "for:".data

/-- Match `/^#\s*Question from:\s*(.+)$/i` and return `m[1].trim()`.  The
greedy `\s*` followed by `(.+)$` matches exactly when something non-empty
follows the literal, and the trimmed capture equals the trimmed remainder. -/
def matchFrom (line : String) : Option String :=
  match line.data with
  | '#' :: rest0 =>
    let r := rest0.dropWhile isWs
    if ciPre qFromLit r then
      let rest := r.drop qFromLit.length
      if rest.isEmpty then none else some ⟨trimChars rest⟩
    else none
  | _ => none

/-- Match `/^##\s*For:\s*(.+)$/i` and return the recipient after the
lower-casing and closed-set check of `parseQuestionFile` (unknown recipients
default to `user`). -/
def matchFor (line : String) : Option Recipient :=
  match line.data with
  | '#' :: '#' :: rest0 =>
    let r := rest0.dropWhile isWs
    if ciPre forLit r then
      let rest := r.drop forLit.length
      if rest.isEmpty then none
      else
        let recipient := (trimChars rest).map Char.toLower
        if recipient = "user".data then some .user
        else if recipient = "po".data then some .po
        else if recipient = "tech_lead".data then some .tech_lead
        else some .user
    else none
  | _ => none

/-- Match `/^##\s*(.+)$/i` and return `m[1].trim().toLowerCase()`. -/
def matchSection (line : String) : Option String :=
  match line.data with
  | '#' :: '#' :: rest0 =>
    if rest0.isEmpty then none else some ⟨(trimChars rest0).map Char.toLower⟩
  | _ => none

/-- The `sectionName.includes(...)` chain of `parseQuestionFile` choosing the
current section. -/
def sectionFor (name : String) : String :=
  if strIncludes name "context" then "context"
  else if strIncludes name "question" then "question"
  else if strIncludes name "option" then "options"
  else ""

/-- The mutable locals of `parseQuestionFile` while scanning lines. -/
structure PState where
  fromAgent : String
  forRecipient : Recipient
  context : String
  question : String
  options : List String
  currentSection : String
  sectionContent : List String
deriving DecidableEq

/-- Initial parser state of `parseQuestionFile`. -/
def initPState : PState :=
  { fromAgent := "", forRecipient := .user, context := "", question := ""
    options := [], currentSection := "", sectionContent := [] }

/-- The `saveSection` closure of `parseQuestionFile`. -/
def saveSection (st : PState) : PState :=
  let text := trimStr (joinNl st.sectionContent)
  let st₂ :=
    if st.currentSection = "context" then { st with context := text }
    else if st.currentSection = "question" then { st with question := text }
    else if st.currentSection = "options" then
      { st with options :=
          st.options ++ ((splitNl text).filter fun l => !(trimStr l == "")) }
    else st
  { st₂ with sectionContent := [] }

/-- One iteration of the `for (const line of lines)` loop of
`parseQuestionFile`, in the source order of the matches. -/
def step (st : PState) (line : String) : PState :=
  match matchFrom line with
  | some fa => { st with fromAgent := fa }
  | none =>
    match matchFor line with
    | some r => { st with forRecipient := r }
    | none =>
      match matchSection line with
      | some name =>
        let st₂ := saveSection st
        { st₂ with currentSection := sectionFor name }
      | none =>
        if st.currentSection ≠ "" then
          { st with sectionContent := st.sectionContent ++ [line] }
        else st

/-- The full line scan of `parseQuestionFile`, including the final
`saveSection()`. -/
def parseLines (lines : List String) : PState :=
  saveSection (lines.foldl step initPState)

/-- `parseQuestionFile` from `src/blocking.ts`, applied to the content of an
existing file (the only `throw` in the source is for a missing file). -/
def parseQuestionFile (filePath content : String) : ParsedQuestion :=
  let st := parseLines (splitNl content)
  { filePath := filePath, fromAgent := st.fromAgent
    forRecipient := st.forRecipient, context := st.context
    question := st.question, options := st.options, rawContent := content }

/-- Routing decisions (`src/blocking.ts`). -/
inductive Routing where
  | prompt_user
  | spawn_po
  | spawn_tech_lead
deriving DecidableEq

/-- `routeQuestion` from `src/blocking.ts`. -/
def routeQuestion (parsedQuestion : ParsedQuestion) : Routing :=
  match parsedQuestion.forRecipient with
  | .user => .prompt_user
  | .po => .spawn_po
  | .tech_lead => .spawn_tech_lead

/-- The string form of a recipient as written by `writeQuestionFile`. -/
def recToStr : Recipient → String
  | .user => "user"
  | .po => "po"
  | .tech_lead => "tech_lead"

/-- The file content assembled by `writeQuestionFile` in `src/blocking.ts`
(`lines.join("\n") + "\n"`). -/
def writeQuestionContent (fromAgent : String) (forRecipient : Recipient)
    (context question : String) (options : List String) : String :=
  let lines :=
    ["# Question from: " ++ fromAgent, "",
     "## For: " ++ recToStr forRecipient, "",
     "## Context", "", context, "",
     "## Question", "", question] ++
    (if options.isEmpty then [] else ["", "## Options", ""] ++ options)
  joinNl lines ++ "\n"

/-! ### Question/response store directory — `src/blocking.ts` -/

/-- One file of the questions directory: its name, its `mtimeMs` stat and its
content. -/
structure QFile where
  name : String
  mtime : Int
  content : String
deriving DecidableEq

/-- The questions directory, in `fs.readdirSync` listing order (the OS does
not guarantee any particular order). -/
structure QDir where
  files : List QFile
deriving DecidableEq

/-- The names present in the directory. -/
def fileNames (d : QDir) : List String := d.files.map (·.name)

/-- `fs.existsSync` within the questions directory. -/
def existsFile (d : QDir) (n : String) : Bool := (fileNames d).contains n

/-- The `f.endsWith(".md") && f.startsWith("q-")` filter of
`listQuestionFiles`. -/
def isQuestionName (n : String) : Bool := strEnds n ".md" && strStarts n "q-"

/-- JS `Array.prototype.sort` comparing `statB.mtimeMs - statA.mtimeMs`
orders entries by descending `mtimeMs`; the relation an entry `a` may
precede `b` under. -/
def mtimeGe (a b : QFile) : Prop := b.mtime ≤ a.mtime

instance : DecidableRel mtimeGe := fun a b =>
  inferInstanceAs (Decidable (b.mtime ≤ a.mtime))

/-- `listQuestionFiles` from `src/blocking.ts`: filter question files, then
sort newest-first.  JS sort is stable (ECMAScript 2019) and a stable sort by
a total preorder is unique, so insertion sort models it exactly. -/
def listQuestionFiles (d : QDir) : List String :=
  ((d.files.filter fun f => isQuestionName f.name).insertionSort mtimeGe).map
    (·.name)

/-- `getResponseFilePath` from `src/blocking.ts`
(`questionFile.replace(/\.md$/, ".response")`). -/
def getResponseFilePath (questionFile : String) : String :=
  if strEnds questionFile ".md" then
    ⟨questionFile.data.take (questionFile.data.length - 3) ++ ".response".data⟩
  else questionFile

/-- `hasResponse` from `src/blocking.ts`. -/
def hasResponse (d : QDir) (questionFile : String) : Bool :=
  existsFile d (getResponseFilePath questionFile)

/-- `findLatestUnansweredQuestion` from `src/blocking.ts`: first file of the
sorted listing whose response file does not exist. -/
def findLatestUnansweredQuestion (d : QDir) : Option String :=
  (listQuestionFiles d).find? fun q => !(hasResponse d q)

/-- `writeResponse` from `src/blocking.ts`: atomically creates the response
file (its content is `# Response\n\n<text>\n\nAnswered: <ts>\n`). -/
def writeResponse (d : QDir) (questionFile response ts : String)
    (mtime : Int) : QDir :=
  ⟨d.files ++ [⟨getResponseFilePath questionFile, mtime,
    "# Response\n\n" ++ response ++ "\n\nAnswered: " ++ ts ++ "\n"⟩]⟩

/-- Read a file of the directory (empty for a missing file; callers only use
it on files that exist). -/
def readFile (d : QDir) (n : String) : String :=
  ((d.files.find? fun f => f.name == n).map (·.content)).getD ""

/-! ### Lemmas about the store listing and `findLatestUnansweredQuestion` -/

theorem listPre_iff (p s : List Char) : listPre p s = true ↔ ∃ t, s = p ++ t := by
  induction p generalizing s with
  | nil => simp [listPre]
  | cons a as ih =>
    cases s with
    | nil => simp [listPre]
    | cons b bs =>
      simp only [listPre, Bool.and_eq_true, beq_iff_eq, ih]
      constructor
      · rintro ⟨rfl, t, rfl⟩
        exact ⟨t, rfl⟩
      · rintro ⟨t, h⟩
        cases h
        exact ⟨rfl, t, rfl⟩

theorem listSuf_iff (p s : List Char) : listSuf p s = true ↔ ∃ t, s = t ++ p := by
  unfold listSuf
  rw [listPre_iff]
  constructor
  · rintro ⟨t, h⟩
    refine ⟨t.reverse, ?_⟩
    have h₂ := congrArg List.reverse h
    simpa [List.reverse_append] using h₂
  · rintro ⟨t, rfl⟩
    exact ⟨t.reverse, by simp [List.reverse_append]⟩

/-- A string ending in `".md"` decomposes as its stem plus `".md"`. -/
theorem md_decomp {x : String} (h : strEnds x ".md" = true) :
    x.data = x.data.take (x.data.length - 3) ++ ".md".data := by
  have h₂ : listSuf ".md".data x.data = true := h
  obtain ⟨t, ht⟩ := (listSuf_iff _ _).mp h₂
  have hlen : x.data.length - 3 = t.length := by simp [ht]
  rw [hlen, ht, List.take_left]

/-- `getResponseFilePath` is injective on names ending in `".md"`. -/
theorem respPath_inj {x q : String} (hx : strEnds x ".md" = true)
    (hq : strEnds q ".md" = true)
    (h : getResponseFilePath x = getResponseFilePath q) : x = q := by
  unfold getResponseFilePath at h
  rw [if_pos hx, if_pos hq] at h
  have hd : x.data.take (x.data.length - 3) ++ ".response".data =
      q.data.take (q.data.length - 3) ++ ".response".data :=
    congrArg String.data h
  have hstem := List.append_cancel_right hd
  apply String.ext
  rw [md_decomp hx, md_decomp hq, hstem]

/-- A response file name never passes the question-file filter. -/
theorem isQuestionName_resp {q : String} (hq : strEnds q ".md" = true) :
    isQuestionName (getResponseFilePath q) = false := by
  unfold getResponseFilePath
  rw [if_pos hq]
  unfold isQuestionName strEnds listSuf
  rw [show (⟨q.data.take (q.data.length - 3) ++ ".response".data⟩ : String).data
      = q.data.take (q.data.length - 3) ++ ".response".data from rfl]
  rw [List.reverse_append]
  rw [show (".response".data).reverse =
      'e' :: 's' :: 'n' :: 'o' :: 'p' :: 's' :: 'e' :: 'r' :: '.' :: [] from rfl]
  rw [show (".md".data).reverse = 'd' :: 'm' :: '.' :: [] from rfl]
  simp [listPre]

/-- Every name listed by `listQuestionFiles` is the name of a question file
entry of the directory. -/
theorem mem_listQuestionFiles {d : QDir} {x : String}
    (h : x ∈ listQuestionFiles d) :
    ∃ f ∈ d.files, isQuestionName f.name = true ∧ f.name = x := by
  unfold listQuestionFiles at h
  obtain ⟨f, hf, rfl⟩ := List.mem_map.mp h
  have hf₂ := (List.perm_insertionSort mtimeGe _).mem_iff.mp hf
  obtain ⟨hmem, hq⟩ := List.mem_filter.mp hf₂
  exact ⟨f, hmem, hq, rfl⟩

/-- `find?` on a `Pairwise r` list: every member satisfying the predicate is
the found element or is dominated by it. -/
theorem find?_mem_pairwise {α : Type} {r : α → α → Prop} {p : α → Bool} :
    ∀ {l : List α} {a : α}, l.Pairwise r → l.find? p = some a →
      ∀ b ∈ l, p b = true → b = a ∨ r a b
  | [], a, _, hf => by simp at hf
  | x :: xs, a, hp, hf => by
    rcases List.pairwise_cons.mp hp with ⟨hx, hxs⟩
    by_cases hpx : p x = true
    · rw [List.find?_cons_of_pos _ hpx] at hf
      injection hf with hf
      subst hf
      intro b hb _
      rcases List.mem_cons.mp hb with rfl | hbmem
      · exact Or.inl rfl
      · exact Or.inr (hx b hbmem)
    · rw [List.find?_cons_of_neg _ hpx] at hf
      intro b hb hpb
      rcases List.mem_cons.mp hb with rfl | hbmem
      · exact absurd hpb hpx
      · exact find?_mem_pairwise hxs hf b hbmem hpb

theorem find?_congr_mem {α : Type} {p₁ p₂ : α → Bool} :
    ∀ {l : List α}, (∀ x ∈ l, p₁ x = p₂ x) → l.find? p₁ = l.find? p₂
  | [], _ => rfl
  | x :: xs, h => by
    have hx := h x (List.mem_cons_self x xs)
    by_cases hpx : p₁ x = true
    · rw [List.find?_cons_of_pos _ hpx, List.find?_cons_of_pos _ (hx ▸ hpx)]
    · rw [List.find?_cons_of_neg _ hpx, List.find?_cons_of_neg _ (hx ▸ hpx)]
      exact find?_congr_mem fun y hy => h y (List.mem_cons_of_mem x hy)

instance : IsTotal QFile mtimeGe := ⟨fun a b => le_total b.mtime a.mtime⟩

instance : IsTrans QFile mtimeGe :=
  ⟨fun _ _ _ hab hbc => le_trans hbc hab⟩

theorem existsFile_iff {d : QDir} {n : String} :
    existsFile d n = true ↔ n ∈ fileNames d :=
  List.elem_iff

theorem hasResponse_iff {d : QDir} {x : String} :
    hasResponse d x = true ↔ getResponseFilePath x ∈ fileNames d :=
  existsFile_iff

/-- A directory with two unanswered question files carrying the same
modification time, listed in ascending name order. -/
def c4dir : QDir := ⟨[⟨"q-001.md", 100, ""⟩, ⟨"q-002.md", 100, ""⟩]⟩

/-- C4 counterexample: with two unanswered question files of equal
modification time, `findLatestUnansweredQuestion` returns the one listed
first by the directory (the stable sort keeps listing order), not the
lexicographically greatest one, contradicting the claimed tie-break. -/
theorem c4_tie_break_counterexample :
    listQuestionFiles c4dir = ["q-001.md", "q-002.md"] ∧
    c4dir.files.map QFile.mtime = [100, 100] ∧
    hasResponse c4dir "q-001.md" = false ∧
    hasResponse c4dir "q-002.md" = false ∧
    lexLt "q-001.md".data "q-002.md".data = true ∧
    findLatestUnansweredQuestion c4dir ≠ some "q-002.md" ∧
    findLatestUnansweredQuestion c4dir = some "q-001.md" := by
  decide

/-- C4 (amended): `findLatestUnansweredQuestion` returns `none` iff every
question file has a correlated response; otherwise it returns an unanswered
question file of maximal modification time (modification-time ties resolve to
directory-listing order under the stable sort, not to the lexicographically
greatest name); and after `writeResponse` on the returned question, a second
call returns the next unanswered question of the unchanged listing (or
`none`). -/
theorem c4_find_latest_unanswered (d : QDir) :
    (findLatestUnansweredQuestion d = none ↔
      ∀ q ∈ listQuestionFiles d, hasResponse d q = true) ∧
    (∀ q, findLatestUnansweredQuestion d = some q →
      q ∈ listQuestionFiles d ∧ hasResponse d q = false ∧
      ∃ fq ∈ d.files, fq.name = q ∧
        ∀ f ∈ d.files, isQuestionName f.name = true →
          hasResponse d f.name = false → f.mtime ≤ fq.mtime) ∧
    (∀ q response ts mt, findLatestUnansweredQuestion d = some q →
      findLatestUnansweredQuestion (writeResponse d q response ts mt) =
        (listQuestionFiles d).find? fun x => !(hasResponse d x) && !(x == q)) := by
  refine ⟨?_, ?_, ?_⟩
  · unfold findLatestUnansweredQuestion
    rw [List.find?_eq_none]
    constructor
    · intro h q hq
      have := h q hq
      simpa using this
    · intro h q hq
      simp [h q hq]
  · intro q hq
    unfold findLatestUnansweredQuestion at hq
    have hqmem : q ∈ listQuestionFiles d := List.mem_of_find?_eq_some hq
    have hqresp : hasResponse d q = false := by
      have := List.find?_some hq
      simpa using this
    refine ⟨hqmem, hqresp, ?_⟩
    unfold listQuestionFiles at hq
    rw [List.find?_map] at hq
    obtain ⟨fq, hfq, hname⟩ := Option.map_eq_some'.mp hq
    have hfqmem : fq ∈ (d.files.filter fun f => isQuestionName f.name) :=
      (List.perm_insertionSort mtimeGe _).mem_iff.mp
        (List.mem_of_find?_eq_some hfq)
    refine ⟨fq, (List.mem_filter.mp hfqmem).1, hname, ?_⟩
    intro f hf hfqn hfr
    have hfmem : f ∈ (d.files.filter fun f => isQuestionName f.name) :=
      List.mem_filter.mpr ⟨hf, hfqn⟩
    have hfsorted : f ∈ List.insertionSort mtimeGe
        (d.files.filter fun f => isQuestionName f.name) :=
      (List.perm_insertionSort mtimeGe _).mem_iff.mpr hfmem
    have hpair : List.Pairwise mtimeGe (List.insertionSort mtimeGe
        (d.files.filter fun f => isQuestionName f.name)) :=
      List.sorted_insertionSort mtimeGe _
    have hpf : ((fun q => !(hasResponse d q)) ∘ fun f => f.name) f = true := by
      simp [Function.comp, hfr]
    rcases find?_mem_pairwise hpair hfq f hfsorted hpf with rfl | hge
    · exact le_refl _
    · exact hge
  · intro q response ts mt hq
    have hqmem : q ∈ listQuestionFiles d := List.mem_of_find?_eq_some hq
    obtain ⟨f₀, hf₀mem, hf₀q, hf₀name⟩ := mem_listQuestionFiles hqmem
    have hqmd : strEnds q ".md" = true := by
      rw [hf₀name] at hf₀q
      unfold isQuestionName at hf₀q
      rw [Bool.and_eq_true] at hf₀q
      exact hf₀q.1
    have hfilter : ((writeResponse d q response ts mt).files.filter
        fun f => isQuestionName f.name) =
        d.files.filter fun f => isQuestionName f.name := by
      unfold writeResponse
      rw [List.filter_append]
      simp [List.filter_cons, isQuestionName_resp hqmd]
    have hlqf : listQuestionFiles (writeResponse d q response ts mt) =
        listQuestionFiles d := by
      unfold listQuestionFiles
      rw [hfilter]
    have hnames : fileNames (writeResponse d q response ts mt) =
        fileNames d ++ [getResponseFilePath q] := by
      simp [fileNames, writeResponse]
    have hhr : ∀ x, strEnds x ".md" = true →
        hasResponse (writeResponse d q response ts mt) x =
          (hasResponse d x || (x == q)) := by
      intro x hx
      rw [Bool.eq_iff_iff]
      constructor
      · intro h
        have hmem := hasResponse_iff.mp h
        rw [hnames] at hmem
        rcases List.mem_append.mp hmem with hm | hm
        · have : hasResponse d x = true := hasResponse_iff.mpr hm
          simp [this]
        · have heq : getResponseFilePath x = getResponseFilePath q := by
            simpa using hm
          have hxq := respPath_inj hx hqmd heq
          simp [hxq]
      · intro h
        rw [Bool.or_eq_true] at h
        rcases h with hm | hm
        · refine hasResponse_iff.mpr ?_
          rw [hnames]
          exact List.mem_append.mpr (Or.inl (hasResponse_iff.mp hm))
        · have hxq : x = q := by simpa using hm
          refine hasResponse_iff.mpr ?_
          rw [hnames, hxq]
          exact List.mem_append.mpr (Or.inr (by simp))
    unfold findLatestUnansweredQuestion
    rw [hlqf]
    apply find?_congr_mem
    intro x hxmem
    obtain ⟨f, _, hfq, hfname⟩ := mem_listQuestionFiles hxmem
    have hxmd : strEnds x ".md" = true := by
      rw [hfname] at hfq
      unfold isQuestionName at hfq
      rw [Bool.and_eq_true] at hfq
      exact hfq.1
    show (!(hasResponse (writeResponse d q response ts mt) x)) =
      (!(hasResponse d x) && !(x == q))
    rw [hhr x hxmd, Bool.not_or]

/-- A directory with two unanswered question files of distinct modification
times. -/
def c4dirW : QDir := ⟨[⟨"q-001.md", 100, ""⟩, ⟨"q-002.md", 200, ""⟩]⟩

/-- Witness for the amended C4 at a concrete directory. -/
theorem c4_find_latest_unanswered_witness :
    findLatestUnansweredQuestion c4dirW = some "q-002.md" ∧
    hasResponse c4dirW "q-002.md" = false ∧
    findLatestUnansweredQuestion (writeResponse c4dirW "q-002.md" "yes" "t" 300) =
      (listQuestionFiles c4dirW).find?
        (fun x => !(hasResponse c4dirW x) && !(x == "q-002.md")) :=
  ⟨by decide,
    ((c4_find_latest_unanswered c4dirW).2.1 "q-002.md" (by decide)).2.1,
    (c4_find_latest_unanswered c4dirW).2.2 "q-002.md" "yes" "t" 300 (by decide)⟩

/-! ### Session scheduler — `src/agents/dev.ts` -/

/-- `checkBlockingForTechLead` from `src/agents/dev.ts`. -/
def checkBlockingForTechLead (d : QDir) : Option String × Bool :=
  match findLatestUnansweredQuestion d with
  | none => (none, false)
  | some questionFile =>
    let parsedQuestion := parseQuestionFile questionFile (readFile d questionFile)
    (some questionFile, routeQuestion parsedQuestion == Routing.spawn_tech_lead)

/-- The status of a `DevAgentResult`. -/
inductive DevStatus where
  | success
  | blocked
  | error
deriving DecidableEq, BEq

/-- `DevAgentResult` from `src/agents/dev.ts`. -/
structure DevAgentResult where
  area : String
  agentResult : AgentResult
  status : DevStatus
  questionFile : Option String
  needsTechLead : Bool
deriving DecidableEq

instance : Inhabited DevAgentResult :=
  ⟨⟨"", ⟨0, "", "", false⟩, .success, none, false⟩⟩

/-- `toDevAgentResult` from `src/agents/dev.ts`; `d` is the questions
directory at the time the session's outcome is classified. -/
def toDevAgentResult (d : QDir) (area : String)
    (agentResult : AgentResult) : DevAgentResult :=
  if isSuccess agentResult then
    { area := area, agentResult := agentResult, status := .success
      questionFile := none, needsTechLead := false }
  else if isBlocked agentResult then
    let blockingInfo := checkBlockingForTechLead d
    { area := area, agentResult := agentResult, status := .blocked
      questionFile := blockingInfo.1, needsTechLead := blockingInfo.2 }
  else
    { area := area, agentResult := agentResult, status := .error
      questionFile := none, needsTechLead := false }

/-- `DevSessionInput` from `src/agents/dev.ts`. -/
structure DevSessionInput where
  area : String
  tickets : List Int
deriving DecidableEq

instance : Inhabited DevSessionInput := ⟨⟨"", []⟩⟩

/-- Ambient files the dev agents need (`prompts/dev.md`, the PRD and the
architecture document). -/
structure DevEnv where
  promptExists : Bool
  prdExists : Bool
  archExists : Bool
deriving DecidableEq

/-- The synchronous validation `spawnDevAgent` / `runDevAgent` perform
before any process is started, in source order. -/
def validateDevConfig (env : DevEnv) (s : DevSessionInput) :
    Except String Unit :=
  if trimStr s.area == "" then .error "Area is required"
  else if s.tickets.isEmpty then .error "At least one ticket is required"
  else if !env.promptExists then .error "Dev prompt file not found"
  else if !env.prdExists then .error "PRD file not found"
  else if !env.archExists then .error "Architecture file not found"
  else .ok ()

/-- The synchronous part of `sessions.map(spawnDevAgent)`: each spawn
validates in input order and the first failure aborts the batch. -/
def validateAll (env : DevEnv) : List DevSessionInput → Except String Unit
  | [] => .ok ()
  | s :: rest =>
    match validateDevConfig env s with
    | .error e => .error e
    | .ok _ => validateAll env rest

/-- `Promise.all` slot filling: each settled promise stores its value at its
own index, whatever order deliveries arrive in. -/
def fillSlots {α : Type} (slots : List (Option α))
    (deliveries : List (Nat × α)) : List (Option α) :=
  deliveries.foldl (fun acc dv => acc.set dv.1 (some dv.2)) slots

/-- `Promise.all` over `n` promises given the deliveries in completion
order: the resolved array is read back in index order. -/
def promiseAll {α : Type} [Inhabited α] (n : Nat)
    (deliveries : List (Nat × α)) : List α :=
  (fillSlots (List.replicate n none) deliveries).map fun s => s.getD default

/-- The sequential branch of `runDevSessions` (one `runDevAgent` per
session, in order, pushing each result); `k` is the index of the first
session of the remaining list. -/
def runSeq (env : DevEnv) (outcome : Nat → AgentResult) (fsAt : Nat → QDir) :
    List DevSessionInput → Nat → Except String (List DevAgentResult)
  | [], _ => .ok []
  | s :: rest, k =>
    match validateDevConfig env s with
    | .error e => .error e
    | .ok _ =>
      match runSeq env outcome fsAt rest (k + 1) with
      | .error e => .error e
      | .ok rs => .ok (toDevAgentResult (fsAt k) s.area (outcome k) :: rs)

/-- `runDevSessions` from `src/agents/dev.ts`.  `options` models the
optional `parallel` flag (`true` when omitted); `outcome i` is the agent
outcome of session `i`; `fsAt i` the questions directory when session `i`
is classified; `finishOrder` the order in which the parallel processes
finish. -/
def runDevSessions (env : DevEnv) (sessions : List DevSessionInput)
    (options : Option Bool) (outcome : Nat → AgentResult)
    (fsAt : Nat → QDir) (finishOrder : List Nat) :
    Except String (List DevAgentResult) :=
  let parallel := options.getD true
  if sessions.isEmpty then .ok []
  else if parallel then
    match validateAll env sessions with
    | .error e => .error e
    | .ok _ => .ok (promiseAll sessions.length
        (finishOrder.map fun i =>
          (i, toDevAgentResult (fsAt i) (sessions.getD i default).area
            (outcome i))))
  else
    runSeq env outcome fsAt sessions 0

/-! ### Scheduler lemmas and claims C2 / C3 -/

theorem toDev_area (d : QDir) (a : String) (r : AgentResult) :
    (toDevAgentResult d a r).area = a := by
  unfold toDevAgentResult
  split
  · rfl
  · split
    · rfl
    · rfl

theorem toDev_blocked_of_questionFile (d : QDir) (a : String) (r : AgentResult) :
    (toDevAgentResult d a r).questionFile ≠ none →
      (toDevAgentResult d a r).status = DevStatus.blocked := by
  unfold toDevAgentResult
  split
  · intro h
    simp at h
  · split
    · intro _
      rfl
    · intro h
      simp at h

theorem validateAll_ok (env : DevEnv) :
    ∀ {sessions : List DevSessionInput},
      (∀ s ∈ sessions, validateDevConfig env s = .ok ()) →
      validateAll env sessions = .ok ()
  | [], _ => rfl
  | s :: rest, h => by
    unfold validateAll
    rw [h s (List.mem_cons_self _ _)]
    exact validateAll_ok env fun x hx => h x (List.mem_cons_of_mem _ hx)

theorem fillSlots_getElem? {α : Type} (f : Nat → α) :
    ∀ (deliveries : List (Nat × α)) (slots : List (Option α)) (j : Nat),
      (∀ p ∈ deliveries, p.2 = f p.1) →
      (fillSlots slots deliveries)[j]? =
        if j ∈ deliveries.map Prod.fst ∧ j < slots.length then
          some (some (f j))
        else slots[j]?
  | [], slots, j, _ => by simp [fillSlots]
  | (i, v) :: rest, slots, j, h => by
    have hv : v = f i := h (i, v) (List.mem_cons_self _ _)
    have hrest : ∀ p ∈ rest, p.2 = f p.1 :=
      fun p hp => h p (List.mem_cons_of_mem _ hp)
    show (fillSlots (slots.set i (some v)) rest)[j]? = _
    rw [fillSlots_getElem? f rest (slots.set i (some v)) j hrest,
      List.length_set]
    by_cases hjl : j < slots.length
    · by_cases hjr : j ∈ rest.map Prod.fst
      · simp [hjl, hjr]
      · by_cases hij : i = j
        · subst hij
          simp [hjl, hjr, List.getElem?_set, hv]
        · have hji : ¬j = i := fun hh => hij hh.symm
          simp [hjl, hjr, hij, hji, List.getElem?_set]
    · have h₁ : (slots.set i (some v))[j]? = none :=
        List.getElem?_eq_none (by rw [List.length_set]; omega)
      have h₂ : slots[j]? = none := List.getElem?_eq_none (by omega)
      simp [hjl, h₁, h₂]

theorem promiseAll_eq {α : Type} [Inhabited α] (f : Nat → α) (n : Nat)
    (ord : List Nat) (hord : ∀ j, j < n → j ∈ ord) :
    promiseAll n (ord.map fun i => (i, f i)) = (List.range n).map f := by
  apply List.ext_getElem?
  intro j
  unfold promiseAll
  rw [List.getElem?_map,
    fillSlots_getElem? f _ _ j (by
      intro p hp
      obtain ⟨i, _, rfl⟩ := List.mem_map.mp hp
      rfl),
    List.length_replicate]
  have hfst : (ord.map fun i => (i, f i)).map Prod.fst = ord := by
    rw [List.map_map, show (Prod.fst ∘ fun i : Nat => (i, f i)) = id from rfl,
      List.map_id]
  rw [hfst]
  by_cases hj : j < n
  · have hmem := hord j hj
    simp [hmem, hj, List.getElem?_map, List.getElem?_range hj]
  · have h₁ : ((List.range n).map f)[j]? = none := by
      apply List.getElem?_eq_none
      rw [List.length_map, List.length_range]
      omega
    have h₂ : (List.replicate n (none : Option α))[j]? = none := by
      apply List.getElem?_eq_none
      rw [List.length_replicate]
      omega
    simp [hj, h₁, h₂]

theorem runSeq_eq (env : DevEnv) (outcome : Nat → AgentResult)
    (fsAt : Nat → QDir) :
    ∀ (sessions : List DevSessionInput) (k : Nat),
      (∀ s ∈ sessions, validateDevConfig env s = .ok ()) →
      runSeq env outcome fsAt sessions k =
        .ok ((List.range sessions.length).map fun i =>
          toDevAgentResult (fsAt (k + i)) ((sessions.getD i default).area)
            (outcome (k + i)))
  | [], k, _ => by simp [runSeq]
  | s :: rest, k, h => by
    unfold runSeq
    rw [h s (List.mem_cons_self _ _),
      runSeq_eq env outcome fsAt rest (k + 1)
        (fun x hx => h x (List.mem_cons_of_mem _ hx))]
    have harith : ∀ i : Nat, k + 1 + i = k + (i + 1) := fun i => by omega
    simp only [List.length_cons, List.range_succ_eq_map, List.map_cons,
      List.map_map]
    simp [Function.comp, List.getD_cons_succ, List.getD_cons_zero, harith,
      Nat.succ_eq_add_one]

/-- C2 (amended): for session inputs that pass the scheduler's synchronous
validation, `runDevSessions` resolves to exactly one result per input
session in input order — whatever order the spawned processes finish, in
parallel mode (the default when the option is omitted) and in sequential
mode alike; each result's area equals the corresponding input's area and
only a blocked result can carry a non-null question file. -/
theorem c2_run_dev_sessions (env : DevEnv) (sessions : List DevSessionInput)
    (options : Option Bool) (outcome : Nat → AgentResult) (fsAt : Nat → QDir)
    (finishOrder : List Nat)
    (hvalid : ∀ s ∈ sessions, validateDevConfig env s = .ok ())
    (hperm : finishOrder.Perm (List.range sessions.length)) :
    ∃ results,
      runDevSessions env sessions options outcome fsAt finishOrder =
        .ok results ∧
      results = (List.range sessions.length).map (fun i =>
        toDevAgentResult (fsAt i) ((sessions.getD i default).area)
          (outcome i)) ∧
      results.length = sessions.length ∧
      (∀ i, i < sessions.length →
        (results.getD i default).area = (sessions.getD i default).area) ∧
      (∀ r ∈ results, r.questionFile ≠ none →
        r.status = DevStatus.blocked) := by
  have hkey : runDevSessions env sessions options outcome fsAt finishOrder =
      .ok ((List.range sessions.length).map fun i =>
        toDevAgentResult (fsAt i) ((sessions.getD i default).area)
          (outcome i)) := by
    unfold runDevSessions
    by_cases hemp : sessions.isEmpty
    · rw [if_pos hemp]
      rw [List.isEmpty_iff] at hemp
      subst hemp
      rfl
    · rw [if_neg hemp]
      by_cases hpar : options.getD true
      · rw [if_pos hpar, validateAll_ok env hvalid]
        rw [promiseAll_eq _ sessions.length finishOrder
          (fun j hj => hperm.mem_iff.mpr (List.mem_range.mpr hj))]
      · rw [if_neg hpar]
        rw [runSeq_eq env outcome fsAt sessions 0 hvalid]
        simp
  refine ⟨_, hkey, rfl, ?_, ?_, ?_⟩
  · rw [List.length_map, List.length_range]
  · intro i hi
    have hlen : i < ((List.range sessions.length).map fun i =>
        toDevAgentResult (fsAt i) ((sessions.getD i default).area)
          (outcome i)).length := by
      rw [List.length_map, List.length_range]
      exact hi
    rw [List.getD_eq_getElem _ _ hlen, List.getElem_map]
    rw [List.getElem_range]
    exact toDev_area _ _ _
  · intro r hr
    obtain ⟨i, _, rfl⟩ := List.mem_map.mp hr
    exact toDev_blocked_of_questionFile _ _ _

instance {ε α : Type} [DecidableEq ε] [DecidableEq α] :
    DecidableEq (Except ε α) := fun a b =>
  match a, b with
  | .error e₁, .error e₂ =>
    if h : e₁ = e₂ then isTrue (by rw [h])
    else isFalse fun hh => h (Except.error.inj hh)
  | .error _, .ok _ => isFalse Except.noConfusion
  | .ok _, .error _ => isFalse Except.noConfusion
  | .ok a₁, .ok a₂ =>
    if h : a₁ = a₂ then isTrue (by rw [h])
    else isFalse fun hh => h (Except.ok.inj hh)

/-- A fully provisioned environment for the dev agents. -/
def c2env : DevEnv := ⟨true, true, true⟩

/-- C2 counterexample: as stated over every list of session inputs the claim
fails — a session with an empty ticket list makes `runDevSessions` throw the
synchronous validation error instead of resolving to one result per input
session. -/
theorem c2_invalid_session_counterexample :
    runDevSessions c2env [⟨"frontend", []⟩] none (fun _ => ⟨0, "", "", false⟩)
      (fun _ => ⟨[]⟩) [0] = .error "At least one ticket is required" := rfl

/-- The spec scenario's three sessions. -/
def c2sessions : List DevSessionInput :=
  [⟨"frontend", [1, 3]⟩, ⟨"backend", [2]⟩, ⟨"api", [5]⟩]

/-- Outcomes success / blocked / error for the three sessions. -/
def c2outcome : Nat → AgentResult := fun i =>
  if i = 0 then ⟨0, "", "", false⟩
  else if i = 1 then ⟨2, "", "", false⟩
  else ⟨1, "", "", false⟩

/-- A questions directory holding one unanswered question routed to the
tech lead. -/
def c2fs : Nat → QDir := fun _ =>
  ⟨[⟨"q-001.md", 100,
    "# Question from: dev-backend\n\n## For: tech_lead\n\n## Question\n\nWhich schema?\n"⟩]⟩

/-- Witness for the amended C2 on the spec scenario, with the processes
finishing in the order api, frontend, backend. -/
theorem c2_run_dev_sessions_witness :
    (∃ results,
      runDevSessions c2env c2sessions none c2outcome c2fs [2, 0, 1] =
        .ok results ∧
      results = (List.range c2sessions.length).map (fun i =>
        toDevAgentResult (c2fs i) ((c2sessions.getD i default).area)
          (c2outcome i)) ∧
      results.length = c2sessions.length ∧
      (∀ i, i < c2sessions.length →
        (results.getD i default).area = (c2sessions.getD i default).area) ∧
      (∀ r ∈ results, r.questionFile ≠ none →
        r.status = DevStatus.blocked)) ∧
    ((List.range c2sessions.length).map fun i =>
      (toDevAgentResult (c2fs i) ((c2sessions.getD i default).area)
        (c2outcome i)).status) =
      [DevStatus.success, DevStatus.blocked, DevStatus.error] :=
  ⟨c2_run_dev_sessions c2env c2sessions none c2outcome c2fs [2, 0, 1]
      (by decide) (by decide),
    by decide⟩

/-- C3: exit code 0 is classified success, 1 error, 2 blocked, and a dev
session result for any exit code outside `{0, 2}` has status `error`. -/
theorem c3_exit_code_classification :
    (∀ ec : Int, isSuccessExitCode ec = true ↔ ec = 0) ∧
    (∀ ec : Int, isErrorExitCode ec = true ↔ ec = 1) ∧
    (∀ ec : Int, isBlockedExitCode ec = true ↔ ec = 2) ∧
    (∀ (d : QDir) (area : String) (r : AgentResult),
      (toDevAgentResult d area r).status =
        if r.exitCode = 0 then DevStatus.success
        else if r.exitCode = 2 then DevStatus.blocked
        else DevStatus.error) := by
  refine ⟨?_, ?_, ?_, ?_⟩
  · intro ec
    simp [isSuccessExitCode, EXIT_SUCCESS]
  · intro ec
    simp [isErrorExitCode, EXIT_ERROR]
  · intro ec
    simp [isBlockedExitCode, EXIT_BLOCKED]
  · intro d area r
    unfold toDevAgentResult isSuccess isBlocked
    by_cases h0 : r.exitCode = 0
    · simp [h0, EXIT_SUCCESS]
    · by_cases h2 : r.exitCode = 2
      · simp [h0, h2, EXIT_SUCCESS, EXIT_BLOCKED]
      · simp [h0, h2, EXIT_SUCCESS, EXIT_BLOCKED]

/-- Witness for C3 at concrete exit codes. -/
theorem c3_exit_code_classification_witness :
    isSuccessExitCode 0 = true ∧ isErrorExitCode 1 = true ∧
    isBlockedExitCode 2 = true ∧
    (toDevAgentResult ⟨[]⟩ "backend" ⟨5, "", "", false⟩).status =
      DevStatus.error :=
  ⟨(c3_exit_code_classification.1 0).mpr rfl,
    (c3_exit_code_classification.2.1 1).mpr rfl,
    (c3_exit_code_classification.2.2.1 2).mpr rfl,
    by rw [c3_exit_code_classification.2.2.2 ⟨[]⟩ "backend" ⟨5, "", "", false⟩]
       decide⟩

/-! ### State store operations — `src/state.ts` — and driver context -/

instance : Inhabited DevSession := ⟨⟨"", [], .pending⟩⟩

/-- `setBlocked` from `src/state.ts`. -/
def setBlocked (state : OState) (blockedAgent : Option AgentType)
    (questionFile : String) (waitingFor : Option Recipient)
    (now : String) : OState :=
  { state with
    blocked := { isBlocked := true, blockedAgent := blockedAgent
                 questionFile := some questionFile, waitingFor := waitingFor }
    lastUpdated := now }

/-- `clearBlocked` from `src/state.ts`. -/
def clearBlocked (state : OState) (now : String) : OState :=
  { state with
    blocked := { isBlocked := false, blockedAgent := none
                 questionFile := none, waitingFor := none }
    lastUpdated := now }

/-- `setCurrentAgent` from `src/state.ts`. -/
def setCurrentAgent (state : OState) (agent : Option String)
    (now : String) : OState :=
  { state with currentAgent := agent, lastUpdated := now }

/-- JS `Array.prototype.findIndex`, with `none` for `-1`. -/
def findIndexA {α : Type} (p : α → Bool) : List α → Option Nat
  | [] => none
  | x :: xs => if p x then some 0 else (findIndexA p xs).map (· + 1)

/-- `addDevSession` from `src/state.ts`; a thrown `StateError` is
`Except.error`. -/
def addDevSession (state : OState) (area : String) (tickets : List Int)
    (now : String) : Except String OState :=
  if (findIndexA (fun s => s.area == area) state.devSessions).isSome then
    .error ("Dev session for area \"" ++ area ++ "\" already exists")
  else
    .ok { state with
      devSessions := state.devSessions ++ [⟨area, tickets, .pending⟩]
      lastUpdated := now }

/-- The `Partial<Pick<DevSession, "tickets" | "status">>` update object. -/
structure DevUpdates where
  tickets : Option (List Int)
  status : Option SessionStatus
deriving DecidableEq

/-- The `{ ...session, ...updates }` spread of `updateDevSession`. -/
def applyUpdates (s : DevSession) (u : DevUpdates) : DevSession :=
  { s with tickets := u.tickets.getD s.tickets
           status := u.status.getD s.status }

/-- `updateDevSession` from `src/state.ts`. -/
def updateDevSession (state : OState) (area : String) (updates : DevUpdates)
    (now : String) : Except String OState :=
  match findIndexA (fun s => s.area == area) state.devSessions with
  | none => .error ("Dev session for area \"" ++ area ++ "\" not found")
  | some sessionIndex =>
    .ok { state with
      devSessions := state.devSessions.set sessionIndex
        (applyUpdates (state.devSessions.getD sessionIndex default) updates)
      lastUpdated := now }

/-- `removeDevSession` from `src/state.ts`. -/
def removeDevSession (state : OState) (area : String) (now : String) :
    Except String OState :=
  if (findIndexA (fun s => s.area == area) state.devSessions).isSome then
    .ok { state with
      devSessions := state.devSessions.filter fun s => !(s.area == area)
      lastUpdated := now }
  else
    .error ("Dev session for area \"" ++ area ++ "\" not found")

/-- `getBlockedAgentType` from `src/blocking.ts`. -/
def getBlockedAgentType (agentName : String) : Option AgentType :=
  let n := lowerStr agentName
  if strIncludes n "po" then some .po
  else if strIncludes n "tech" || strIncludes n "lead" then some .tech_lead
  else if strIncludes n "dev" then some .dev
  else none

/-- A GitHub issue as consumed by `parseAreasFromIssues`
(`src/github.ts`). -/
structure Issue where
  number : Int
  state : String
deriving DecidableEq

/-- `AreaWithIssues` from `src/agents/tech-lead.ts`. -/
structure AreaWithIssues where
  area : String
  issues : List Issue
  ticketNumbers : List Int
deriving DecidableEq

/-- `parseAreasFromIssues` from `src/agents/tech-lead.ts`; `issuesOf` models
the GitHub client's issues per area label. -/
def parseAreasFromIssues (issuesOf : String → List Issue) :
    List String → List AreaWithIssues
  | [] => []
  | area :: rest =>
    let openIssues := (issuesOf area).filter fun issue => issue.state == "open"
    if openIssues.isEmpty then parseAreasFromIssues issuesOf rest
    else ⟨area, openIssues, openIssues.map (·.number)⟩ ::
      parseAreasFromIssues issuesOf rest

/-- `areasToDevSessionInput` from `src/agents/tech-lead.ts`. -/
def areasToDevSessionInput (areasWithIssues : List AreaWithIssues) :
    List DevSessionInput :=
  areasWithIssues.map fun a => ⟨a.area, a.ticketNumbers⟩

/-- The agent names the orchestration driver passes to blocked-state
handling: the fixed agent types, or `dev-<area>` for a dev session
(`handleBlockingForAgent` and `monitorDevSessions` in the driver). -/
def DriverAgentName (n : String) : Prop :=
  n = "po" ∨ n = "tech_lead" ∨ n = "dev" ∨ ∃ area, n = "dev-" ++ area

/-- States reachable from the initial state through the State Store
operations as the orchestration driver invokes them: phase transitions,
blocked handling (`handleBlockingQuestion` always derives the agent type via
`getBlockedAgentType` from a driver agent name), current-agent updates, dev
sessions seeded from `areasToDevSessionInput(parseAreasFromIssues())`
(`techLeadPhase`), status-only session updates (`monitorDevSessions`), and
session removal. -/
inductive Reachable : OState → Prop where
  | init (now : String) : Reachable (createInitialState now)
  | transition {s : OState} {p : Phase} {now : String} {s₂ : OState} :
      Reachable s → transitionPhase s p now = .ok s₂ → Reachable s₂
  | block {s : OState} {n qf : String} {w : Recipient} {now : String} :
      Reachable s → DriverAgentName n →
      Reachable (setBlocked s (getBlockedAgentType n) qf (some w) now)
  | unblock {s : OState} {now : String} :
      Reachable s → Reachable (clearBlocked s now)
  | agent {s : OState} {a : Option String} {now : String} :
      Reachable s → Reachable (setCurrentAgent s a now)
  | addSession {s : OState} {input : DevSessionInput} {areas : List String}
      {issuesOf : String → List Issue} {now : String} {s₂ : OState} :
      Reachable s →
      input ∈ areasToDevSessionInput (parseAreasFromIssues issuesOf areas) →
      addDevSession s input.area input.tickets now = .ok s₂ →
      Reachable s₂
  | updateStatus {s : OState} {area : String} {st : SessionStatus}
      {now : String} {s₂ : OState} :
      Reachable s → updateDevSession s area ⟨none, some st⟩ now = .ok s₂ →
      Reachable s₂
  | removeSession {s : OState} {area : String} {now : String} {s₂ : OState} :
      Reachable s → removeDevSession s area now = .ok s₂ → Reachable s₂

/-! ### Invariant lemmas — claims C7 / C8 -/

theorem transitionPhase_ok_shape {s : OState} {p : Phase} {now : String}
    {s₂ : OState} (h : transitionPhase s p now = .ok s₂) :
    s₂ = { s with phase := p, lastUpdated := now } := by
  unfold transitionPhase at h
  split at h
  · exact (Except.ok.inj h).symm
  · exact Except.noConfusion h

theorem addDevSession_ok_shape {s : OState} {area : String}
    {tickets : List Int} {now : String} {s₂ : OState}
    (h : addDevSession s area tickets now = .ok s₂) :
    findIndexA (fun x => x.area == area) s.devSessions = none ∧
    s₂ = { s with devSessions := s.devSessions ++ [⟨area, tickets, .pending⟩]
                  lastUpdated := now } := by
  unfold addDevSession at h
  split at h
  · exact Except.noConfusion h
  · next hidx =>
      exact ⟨Option.not_isSome_iff_eq_none.mp hidx, (Except.ok.inj h).symm⟩

theorem updateDevSession_ok_shape {s : OState} {area : String}
    {updates : DevUpdates} {now : String} {s₂ : OState}
    (h : updateDevSession s area updates now = .ok s₂) :
    ∃ i, findIndexA (fun x => x.area == area) s.devSessions = some i ∧
      s₂ = { s with
        devSessions := s.devSessions.set i
          (applyUpdates (s.devSessions.getD i default) updates)
        lastUpdated := now } := by
  unfold updateDevSession at h
  split at h
  · exact Except.noConfusion h
  · next i hidx => exact ⟨i, hidx, (Except.ok.inj h).symm⟩

theorem removeDevSession_ok_shape {s : OState} {area : String}
    {now : String} {s₂ : OState}
    (h : removeDevSession s area now = .ok s₂) :
    s₂ = { s with
      devSessions := s.devSessions.filter fun x => !(x.area == area)
      lastUpdated := now } := by
  unfold removeDevSession at h
  split at h
  · exact (Except.ok.inj h).symm
  · exact Except.noConfusion h

theorem findIndexA_eq_none_iff {α : Type} {p : α → Bool} :
    ∀ {l : List α}, findIndexA p l = none ↔ ∀ x ∈ l, p x = false
  | [] => by simp [findIndexA]
  | x :: xs => by
    simp only [findIndexA]
    by_cases hx : p x
    · simp [hx]
    · simp only [if_neg (by simp [hx] : ¬(p x = true))]
      rw [Option.map_eq_none',
        (findIndexA_eq_none_iff : findIndexA p xs = none ↔ _)]
      have hpx : p x = false := by
        cases hpx₂ : p x
        · rfl
        · exact absurd hpx₂ hx
      constructor
      · intro h y hy
        rcases List.mem_cons.mp hy with rfl | hy₂
        · exact hpx
        · exact h y hy₂
      · intro h y hy
        exact h y (List.mem_cons_of_mem _ hy)

theorem findIndexA_some_lt {α : Type} {p : α → Bool} :
    ∀ {l : List α} {i : Nat}, findIndexA p l = some i → i < l.length
  | [], i, h => by simp [findIndexA] at h
  | x :: xs, i, h => by
    simp only [findIndexA] at h
    by_cases hx : p x
    · rw [if_pos hx] at h
      injection h with h
      simp [← h]
    · rw [if_neg hx] at h
      obtain ⟨j, hj, rfl⟩ := Option.map_eq_some'.mp h
      have := findIndexA_some_lt hj
      simp only [List.length_cons]
      omega

theorem set_getD_self {α : Type} [Inhabited α] :
    ∀ (l : List α) (i : Nat), l.set i (l.getD i default) = l
  | [], _ => rfl
  | _ :: _, 0 => rfl
  | x :: xs, i + 1 => congrArg (List.cons x) (set_getD_self xs i)

theorem getD_map_area :
    ∀ (l : List DevSession) (i : Nat),
      (l.map DevSession.area).getD i (default : String) =
        (l.getD i (default : DevSession)).area
  | [], _ => rfl
  | _ :: _, 0 => rfl
  | _ :: xs, i + 1 => getD_map_area xs i

theorem listSub_of_pre {p s : List Char} (h : listPre p s = true) :
    listSub p s = true := by
  cases s with
  | nil =>
    cases p with
    | nil => rfl
    | cons a as => simp [listPre] at h
  | cons c cs =>
    unfold listSub
    rw [h]
    rfl

/-- Every agent name the driver passes to blocked handling maps to a
non-null blocked agent type. -/
theorem getBlockedAgentType_driver {n : String} (h : DriverAgentName n) :
    getBlockedAgentType n ≠ none := by
  rcases h with rfl | rfl | rfl | ⟨area, rfl⟩
  · decide
  · decide
  · decide
  · unfold getBlockedAgentType
    by_cases h1 : strIncludes (lowerStr ("dev-" ++ area)) "po"
    · simp [h1]
    · by_cases h2 : strIncludes (lowerStr ("dev-" ++ area)) "tech"
        || strIncludes (lowerStr ("dev-" ++ area)) "lead"
      · simp [h1, h2]
      · have h3 : strIncludes (lowerStr ("dev-" ++ area)) "dev" = true := by
          show listSub "dev".data (lowerStr ("dev-" ++ area)).data = true
          rw [show (lowerStr ("dev-" ++ area)).data =
            'd' :: 'e' :: 'v' :: '-' :: (area.data.map Char.toLower) from rfl]
          apply listSub_of_pre
          simp [listPre]
        simp [h1, h2, h3]

/-- C7: in every driver-reachable state, `isBlocked` is true iff
`blockedAgent`, `questionFile` and `waitingFor` are all non-null, and
`clearBlocked` resets all four fields to the unblocked tuple in one
operation. -/
theorem c7_blocked_invariant :
    (∀ s, Reachable s →
      (s.blocked.isBlocked = true ↔
        (s.blocked.blockedAgent ≠ none ∧ s.blocked.questionFile ≠ none ∧
          s.blocked.waitingFor ≠ none))) ∧
    (∀ (s : OState) (now : String),
      (clearBlocked s now).blocked =
        ⟨false, none, none, none⟩) := by
  refine ⟨?_, fun s now => rfl⟩
  intro s hs
  induction hs with
  | init now =>
    constructor
    · intro h
      exact Bool.noConfusion h
    · rintro ⟨h1, _, _⟩
      exact absurd rfl h1
  | transition hr htr ih =>
    rw [transitionPhase_ok_shape htr]
    exact ih
  | block hr hdn ih =>
    constructor
    · intro _
      exact ⟨getBlockedAgentType_driver hdn, Option.some_ne_none _,
        Option.some_ne_none _⟩
    · intro _
      rfl
  | unblock hr ih =>
    constructor
    · intro h
      exact Bool.noConfusion h
    · rintro ⟨h1, _, _⟩
      exact absurd rfl h1
  | agent hr ih => exact ih
  | addSession hr hmem hadd ih =>
    rw [(addDevSession_ok_shape hadd).2]
    exact ih
  | updateStatus hr hupd ih =>
    obtain ⟨i, _, rfl⟩ := updateDevSession_ok_shape hupd
    exact ih
  | removeSession hr hrem ih =>
    rw [removeDevSession_ok_shape hrem]
    exact ih

/-- Witness for C7 at concrete reachable states (the initial state and a
state blocked by a dev session agent). -/
theorem c7_blocked_invariant_witness :
    ((createInitialState "t0").blocked.isBlocked = true ↔
      ((createInitialState "t0").blocked.blockedAgent ≠ none ∧
        (createInitialState "t0").blocked.questionFile ≠ none ∧
        (createInitialState "t0").blocked.waitingFor ≠ none)) ∧
    ((setBlocked (createInitialState "t0")
        (getBlockedAgentType "dev-frontend") "q-001.md"
        (some .user) "t1").blocked.isBlocked = true ↔
      ((setBlocked (createInitialState "t0")
          (getBlockedAgentType "dev-frontend") "q-001.md"
          (some .user) "t1").blocked.blockedAgent ≠ none ∧
        (setBlocked (createInitialState "t0")
          (getBlockedAgentType "dev-frontend") "q-001.md"
          (some .user) "t1").blocked.questionFile ≠ none ∧
        (setBlocked (createInitialState "t0")
          (getBlockedAgentType "dev-frontend") "q-001.md"
          (some .user) "t1").blocked.waitingFor ≠ none)) ∧
    (clearBlocked (createInitialState "t0") "t1").blocked =
      ⟨false, none, none, none⟩ :=
  ⟨c7_blocked_invariant.1 _ (Reachable.init "t0"),
    c7_blocked_invariant.1 _
      (Reachable.block (Reachable.init "t0")
        (Or.inr (Or.inr (Or.inr ⟨"frontend", rfl⟩)))),
    c7_blocked_invariant.2 _ "t1"⟩

/-- Ticket lists seeded from the parsed GitHub areas are never empty
(`parseAreasFromIssues` only emits areas with at least one open issue). -/
theorem parseAreas_tickets {issuesOf : String → List Issue} :
    ∀ {areas : List String} {a : AreaWithIssues},
      a ∈ parseAreasFromIssues issuesOf areas → a.ticketNumbers ≠ []
  | [], a, ha => by simp [parseAreasFromIssues] at ha
  | area :: rest, a, ha => by
    simp only [parseAreasFromIssues] at ha
    by_cases hemp : ((issuesOf area).filter
        fun issue => issue.state == "open").isEmpty
    · rw [if_pos hemp] at ha
      exact parseAreas_tickets ha
    · rw [if_neg hemp] at ha
      rcases List.mem_cons.mp ha with rfl | ha₂
      · intro hc
        have hnil : ((issuesOf area).filter
            fun issue => issue.state == "open") = [] :=
          List.map_eq_nil_iff.mp hc
        rw [hnil] at hemp
        exact hemp rfl
      · exact parseAreas_tickets ha₂

/-- C8: in every driver-reachable state the dev session areas are pairwise
distinct and every session's ticket list is non-empty from creation;
`addDevSession` on an area that already exists always fails. -/
theorem c8_dev_session_invariant :
    (∀ s, Reachable s →
      (s.devSessions.map DevSession.area).Nodup ∧
      ∀ d ∈ s.devSessions, d.tickets ≠ []) ∧
    (∀ (s : OState) (area : String) (tickets : List Int) (now : String),
      (∃ d ∈ s.devSessions, d.area = area) →
      ∃ e, addDevSession s area tickets now = .error e) := by
  constructor
  · intro s hs
    induction hs with
    | init now =>
      exact ⟨List.nodup_nil, fun d hd => absurd hd (List.not_mem_nil d)⟩
    | transition hr htr ih =>
      rw [transitionPhase_ok_shape htr]
      exact ih
    | block hr hdn ih => exact ih
    | unblock hr ih => exact ih
    | agent hr ih => exact ih
    | addSession hr hmem hadd ih =>
      rename_i s₁ input areas issuesOf now s₂
      obtain ⟨hnone, rfl⟩ := addDevSession_ok_shape hadd
      constructor
      · rw [List.map_append, List.nodup_append]
        refine ⟨ih.1, List.nodup_singleton _, ?_⟩
        intro x hx hx₂
        obtain ⟨d, hd, hdeq⟩ := List.mem_map.mp hx
        have hfalse := findIndexA_eq_none_iff.mp hnone d hd
        have hxval : x = input.area := by simpa using hx₂
        rw [hxval] at hdeq
        rw [hdeq] at hfalse
        simp at hfalse
      · intro d hd
        rcases List.mem_append.mp hd with hold | hnew
        · exact ih.2 d hold
        · have hdval : d = ⟨input.area, input.tickets, .pending⟩ := by
            simpa using hnew
          subst hdval
          show input.tickets ≠ []
          unfold areasToDevSessionInput at hmem
          obtain ⟨a, ha, rfl⟩ := List.mem_map.mp hmem
          exact parseAreas_tickets ha
    | updateStatus hr hupd ih =>
      rename_i s₁ area st now s₂
      obtain ⟨i, hidx, rfl⟩ := updateDevSession_ok_shape hupd
      have hlt := findIndexA_some_lt hidx
      constructor
      · have hval : (applyUpdates (s₁.devSessions.getD i default)
            ⟨none, some st⟩).area =
            (s₁.devSessions.map DevSession.area).getD i default := by
          rw [getD_map_area]
          rfl
        show ((s₁.devSessions.set i _).map DevSession.area).Nodup
        rw [List.map_set, hval, set_getD_self]
        exact ih.1
      · intro d hd
        rcases List.mem_or_eq_of_mem_set hd with hold | rfl
        · exact ih.2 d hold
        · show (applyUpdates (s₁.devSessions.getD i default)
            ⟨none, some st⟩).tickets ≠ []
          have hmemi : s₁.devSessions.getD i default ∈ s₁.devSessions := by
            rw [List.getD_eq_getElem _ _ hlt]
            exact List.getElem_mem hlt
          have htk : (applyUpdates (s₁.devSessions.getD i default)
              ⟨none, some st⟩).tickets =
              (s₁.devSessions.getD i default).tickets := rfl
          rw [htk]
          exact ih.2 _ hmemi
    | removeSession hr hrem ih =>
      rw [removeDevSession_ok_shape hrem]
      constructor
      · exact List.Nodup.sublist
          ((List.filter_sublist _).map DevSession.area) ih.1
      · intro d hd
        exact ih.2 d (List.mem_of_mem_filter hd)
  · rintro s area tickets now ⟨d, hd, hdeq⟩
    unfold addDevSession
    have hsome : (findIndexA (fun x => x.area == area)
        s.devSessions).isSome = true := by
      cases hidx : findIndexA (fun x => x.area == area) s.devSessions with
      | some i => rfl
      | none =>
        have hfalse := findIndexA_eq_none_iff.mp hidx d hd
        rw [hdeq] at hfalse
        simp at hfalse
    rw [if_pos hsome]
    exact ⟨_, rfl⟩

/-- A GitHub client with two open issues for every area. -/
def c8issues : String → List Issue := fun _ => [⟨1, "open"⟩, ⟨3, "open"⟩]

/-- The state after the driver seeds one dev session for `frontend`. -/
def c8state : OState :=
  { phase := .init
    blocked := { isBlocked := false, blockedAgent := none,
                 questionFile := none, waitingFor := none }
    devSessions := [⟨"frontend", [1, 3], .pending⟩]
    currentAgent := none
    lastUpdated := "t1" }

/-- Witness for C8 at a concrete reachable state with one seeded session. -/
theorem c8_dev_session_invariant_witness :
    ((c8state.devSessions.map DevSession.area).Nodup ∧
      ∀ d ∈ c8state.devSessions, d.tickets ≠ []) ∧
    (∃ e, addDevSession c8state "frontend" [7] "t2" = .error e) :=
  ⟨c8_dev_session_invariant.1 c8state
      (@Reachable.addSession (createInitialState "t0") ⟨"frontend", [1, 3]⟩
        ["frontend"] c8issues "t1" c8state (Reachable.init "t0") (by decide)
        rfl),
    c8_dev_session_invariant.2 c8state "frontend" [7] "t2"
      ⟨⟨"frontend", [1, 3], .pending⟩, by decide, rfl⟩⟩

/-! ### The kill closure of `spawnAgent` — `src/agents/base.ts` -/

/-- A Node `ChildProcess` as the kill closure observes it.  Per the Node
documentation, `killed` is set to true only when a `kill()` call
successfully sends a signal to the child; a child that exits on its own
leaves `killed` false. -/
structure ProcState where
  alive : Bool
  killedFlag : Bool
deriving DecidableEq

/-- Node `childProcess.kill(signal)`: sending succeeds only while the
process is alive, in which case the `killed` flag becomes true; on an
already-exited process the call fails and the flag is unchanged. -/
def childKill (p : ProcState) : ProcState :=
  if p.alive then { p with killedFlag := true } else p

/-- The immediate body of the `kill` closure of `spawnAgent`:
`if (!childProcess.killed) { childProcess.kill("SIGTERM"); ... }`.  The
boolean reports whether the underlying `childProcess.kill` was invoked. -/
def killClosure (p : ProcState) : ProcState × Bool :=
  if !p.killedFlag then (childKill p, true) else (p, false)

/-- The `setTimeout` callback of the kill closure five seconds later,
evaluated on the process state at that time:
`if (!childProcess.killed) childProcess.kill("SIGKILL")`. -/
def killTimeoutCb (p : ProcState) : ProcState × Bool :=
  if !p.killedFlag then (childKill p, true) else (p, false)

/-- C9 evaluation at the failing inputs: the closure guards on the
`killed` flag (signal previously sent) rather than on process exit, so
(1) on a handle whose process already self-exited without being signalled
the underlying termination call is invoked again rather than skipped, and
(2) after a successful graceful SIGTERM the flag is already true, so the
5-second forced kill can never fire even while the child is still alive —
contradicting the claim and the code's own comment
("Force kill after timeout if still running").  A second call after an
effective first call is a no-op, the one part of the claim the code
satisfies. -/
theorem c9_kill_closure_eval :
    (killClosure ⟨false, false⟩).2 = true ∧
    (killClosure ⟨true, false⟩).1.killedFlag = true ∧
    (killTimeoutCb ⟨true, true⟩).2 = false ∧
    (killClosure ⟨true, true⟩).2 = false := by
  decide

/-! ### Join / split / trim lemmas for the question file grammar -/

theorem intercalate_singleton {α : Type} (sep : List α) (a : List α) :
    List.intercalate sep [a] = a := by
  unfold List.intercalate
  simp

theorem intercalate_cons₂ {α : Type} (sep a b : List α) (l : List (List α)) :
    List.intercalate sep (a :: b :: l) =
      a ++ sep ++ List.intercalate sep (b :: l) := by
  unfold List.intercalate
  rw [List.intersperse_cons₂]
  simp [List.append_assoc]

theorem intercalate_append₂ {α : Type} (sep : List α) :
    ∀ (as bs : List (List α)), as ≠ [] → bs ≠ [] →
      List.intercalate sep (as ++ bs) =
        List.intercalate sep as ++ sep ++ List.intercalate sep bs
  | [], _, ha, _ => absurd rfl ha
  | [a], bs, _, hb => by
    cases bs with
    | nil => exact absurd rfl hb
    | cons b bs₂ =>
      rw [List.singleton_append, intercalate_cons₂, intercalate_singleton]
  | a :: a₂ :: as, bs, _, hb => by
    rw [List.cons_append, List.cons_append, intercalate_cons₂,
      ← List.cons_append,
      intercalate_append₂ sep (a₂ :: as) bs (by simp) hb,
      intercalate_cons₂]
    simp [List.append_assoc]

theorem joinNl_nil : joinNl [] = "" := rfl

theorem joinNl_singleton (s : String) : joinNl [s] = s := by
  apply String.ext
  show List.intercalate ['\n'] [s.data] = s.data
  exact intercalate_singleton _ _

theorem joinNl_append (xs ys : List String) (hx : xs ≠ []) (hy : ys ≠ []) :
    joinNl (xs ++ ys) = joinNl xs ++ "\n" ++ joinNl ys := by
  apply String.ext
  show List.intercalate ['\n'] ((xs ++ ys).map String.data) = _
  rw [List.map_append,
    intercalate_append₂ ['\n'] (xs.map String.data) (ys.map String.data)
      (by simpa using hx) (by simpa using hy)]
  rfl

theorem joinNl_splitNl (s : String) : joinNl (splitNl s) = s := by
  apply String.ext
  show List.intercalate ['\n'] ((splitNl s).map String.data) = s.data
  unfold splitNl
  rw [List.map_map]
  rw [show (String.data ∘ List.asString) = id from rfl, List.map_id]
  exact List.intercalate_splitOn s.data '\n'

theorem splitNl_ne_nil (s : String) : splitNl s ≠ [] := by
  unfold splitNl
  intro h
  exact List.splitOnP_ne_nil _ _ (List.map_eq_nil_iff.mp h)

theorem splitNl_joinNl (ls : List String) (h : ∀ l ∈ ls, '\n' ∉ l.data)
    (hne : ls ≠ []) : splitNl (joinNl ls) = ls := by
  unfold splitNl joinNl
  rw [show (⟨List.intercalate ['\n'] (ls.map String.data)⟩ : String).data =
    List.intercalate ['\n'] (ls.map String.data) from rfl]
  rw [List.splitOn_intercalate (ls.map String.data) '\n'
    (by
      intro l hl
      obtain ⟨x, hx, rfl⟩ := List.mem_map.mp hl
      exact h x hx)
    (by simpa using hne)]
  rw [List.map_map]
  rw [show (List.asString ∘ String.data) = id from rfl, List.map_id]

theorem joinNl_splitNl_data (s : String) :
    List.intercalate ['\n'] ((splitNl s).map String.data) = s.data := by
  unfold splitNl
  rw [List.map_map]
  rw [show (String.data ∘ List.asString) = id from rfl, List.map_id]
  exact List.intercalate_splitOn s.data '\n'

theorem splitOnP_chunks {p : Char → Bool} :
    ∀ {l : List Char} {c : List Char}, c ∈ l.splitOnP p → ∀ x ∈ c, ¬p x = true
  | [], c, hc => by
    rw [List.splitOnP_nil] at hc
    have : c = [] := by simpa using hc
    subst this
    intro x hx
    exact absurd hx (List.not_mem_nil x)
  | a :: as, c, hc => by
    rw [List.splitOnP_cons] at hc
    by_cases hpa : p a = true
    · rw [if_pos hpa] at hc
      rcases List.mem_cons.mp hc with rfl | hc₂
      · intro x hx
        exact absurd hx (List.not_mem_nil x)
      · exact splitOnP_chunks hc₂
    · rw [if_neg hpa] at hc
      cases hsplit : as.splitOnP p with
      | nil => exact absurd hsplit (List.splitOnP_ne_nil _ _)
      | cons hhd t =>
        rw [hsplit, List.modifyHead_cons] at hc
        rcases List.mem_cons.mp hc with rfl | hc₂
        · intro x hx
          rcases List.mem_cons.mp hx with rfl | hx₂
          · exact hpa
          · exact splitOnP_chunks
              (show hhd ∈ as.splitOnP p by
                rw [hsplit]; exact List.mem_cons_self hhd t) x hx₂
        · exact splitOnP_chunks
            (show c ∈ as.splitOnP p by
              rw [hsplit]; exact List.mem_cons_of_mem hhd hc₂)

theorem mem_splitNl_no_nl {s : String} : ∀ l ∈ splitNl s, '\n' ∉ l.data := by
  intro l hl hc
  unfold splitNl at hl
  obtain ⟨c, hcmem, rfl⟩ := List.mem_map.mp hl
  have := splitOnP_chunks hcmem '\n' hc
  simp at this

theorem trimChars_cons_ws {w : Char} (cs : List Char) (hw : isWs w = true) :
    trimChars (w :: cs) = trimChars cs := by
  unfold trimChars trimLeft
  rw [List.dropWhile_cons_of_pos hw]

theorem trimRight_append_ws {w : Char} (cs : List Char) (hw : isWs w = true) :
    trimRight (cs ++ [w]) = trimRight cs := by
  unfold trimRight
  rw [List.reverse_append]
  show ((w :: cs.reverse).dropWhile isWs).reverse = _
  rw [List.dropWhile_cons_of_pos hw]

theorem trimChars_append_ws {w : Char} (cs : List Char) (hw : isWs w = true) :
    trimChars (cs ++ [w]) = trimChars cs := by
  unfold trimChars trimLeft
  rw [List.dropWhile_append]
  by_cases hemp : (cs.dropWhile isWs).isEmpty
  · rw [if_pos hemp]
    have h₁ : cs.dropWhile isWs = [] := by simpa using hemp
    rw [show List.dropWhile isWs [w] = [] from by
      rw [List.dropWhile_cons_of_pos hw]; rfl]
    rw [h₁]
  · rw [if_neg hemp]
    exact trimRight_append_ws _ hw

theorem trimChars_wrap (cs : List Char) :
    trimChars ('\n' :: cs ++ ['\n']) = trimChars cs := by
  have h₁ : trimChars ('\n' :: (cs ++ ['\n'])) = trimChars (cs ++ ['\n']) :=
    trimChars_cons_ws _ (by decide)
  have h₂ : trimChars (cs ++ ['\n']) = trimChars cs :=
    trimChars_append_ws _ (by decide)
  rw [show ('\n' :: cs ++ ['\n']) = '\n' :: (cs ++ ['\n']) from rfl, h₁, h₂]

/-- A self-trimmed list is untouched by both one-sided trims. -/
theorem trim_parts {cs : List Char} (h : trimChars cs = cs) :
    trimLeft cs = cs ∧ trimRight cs = cs := by
  have hsuf : trimLeft cs <:+ cs := List.dropWhile_suffix isWs
  have hlen₁ : (trimChars cs).length = cs.length := by rw [h]
  have hsuf₂ : trimRight (trimLeft cs) <+: trimLeft cs := by
    unfold trimRight
    rw [← List.reverse_suffix]
    simpa using
      (List.dropWhile_suffix isWs :
        (trimLeft cs).reverse.dropWhile isWs <:+ (trimLeft cs).reverse)
  have hlen₂ : (trimRight (trimLeft cs)).length ≤ (trimLeft cs).length :=
    hsuf₂.length_le
  have hlen₃ : (trimLeft cs).length ≤ cs.length := hsuf.length_le
  have hL : trimLeft cs = cs := by
    apply hsuf.eq_of_length
    have : (trimChars cs).length ≤ (trimLeft cs).length := hlen₂
    omega
  refine ⟨hL, ?_⟩
  have : trimRight (trimLeft cs) = cs := h
  rw [hL] at this
  exact this

/-! ### Parser step lemmas -/

/-- A string is not empty iff its character list is not empty. -/
theorem data_ne_nil {s : String} (h : s ≠ "") : s.data ≠ [] := by
  intro hc
  exact h (String.ext hc)

/-- Lines on which none of the three line matchers fire. -/
def ContentLine (l : String) : Prop :=
  matchFrom l = none ∧ matchFor l = none ∧ matchSection l = none

instance (l : String) : Decidable (ContentLine l) :=
  inferInstanceAs (Decidable (_ ∧ _ ∧ _))

theorem not_hashhash {l : String} (h : strStarts l "##" = false) :
    matchFor l = none ∧ matchSection l = none := by
  constructor
  · unfold matchFor
    split
    · next rest0 heq =>
      exfalso
      unfold strStarts at h
      rw [heq] at h
      simp [listPre] at h
    · rfl
  · unfold matchSection
    split
    · next rest0 heq =>
      exfalso
      unfold strStarts at h
      rw [heq] at h
      simp [listPre] at h
    · rfl

theorem contentLine_of {l : String} (h1 : matchFrom l = none)
    (h2 : strStarts l "##" = false) : ContentLine l :=
  ⟨h1, (not_hashhash h2).1, (not_hashhash h2).2⟩

theorem step_content {st : PState} {l : String} (hl : ContentLine l)
    (hs : st.currentSection ≠ "") :
    step st l = { st with sectionContent := st.sectionContent ++ [l] } := by
  unfold step
  rw [hl.1, hl.2.1, hl.2.2]
  simp [hs]

theorem foldl_content :
    ∀ (ls rest : List String) (st : PState),
      (∀ l ∈ ls, ContentLine l) → st.currentSection ≠ "" →
      List.foldl step st (ls ++ rest) =
        List.foldl step
          { st with sectionContent := st.sectionContent ++ ls } rest
  | [], rest, st, _, _ => by simp
  | l :: ls, rest, st, h, hs => by
    rw [List.cons_append, List.foldl_cons,
      step_content (h l (List.mem_cons_self _ _)) hs,
      foldl_content ls rest
        { st with sectionContent := st.sectionContent ++ [l] }
        (fun x hx => h x (List.mem_cons_of_mem _ hx))
        (show ({ st with sectionContent := st.sectionContent ++ [l] } :
          PState).currentSection ≠ "" from hs)]
    congr 1
    simp

theorem matchFrom_written (fa : String) (h : trimChars fa.data = fa.data) :
    matchFrom ("# Question from: " ++ fa) = some fa := by
  have h₀ : matchFrom ("# Question from: " ++ fa) =
      some ⟨trimChars fa.data⟩ := rfl
  rw [h₀, h]

theorem step_from (st : PState) (fa : String)
    (hfa : trimChars fa.data = fa.data) :
    step st ("# Question from: " ++ fa) = { st with fromAgent := fa } := by
  unfold step
  rw [matchFrom_written fa hfa]

theorem step_for (st : PState) (r : Recipient) :
    step st ("## For: " ++ recToStr r) = { st with forRecipient := r } := by
  cases r <;> rfl

theorem step_context_header (st : PState) :
    step st "## Context" =
      { saveSection st with currentSection := "context" } := rfl

theorem step_question_header (st : PState) :
    step st "## Question" =
      { saveSection st with currentSection := "question" } := rfl

theorem step_options_header (st : PState) :
    step st "## Options" =
      { saveSection st with currentSection := "options" } := rfl

/-! ### Flush lemmas -/

theorem joinNl_wrap (mid : String) :
    joinNl ["", mid, ""] = "\n" ++ mid ++ "\n" := by
  apply String.ext
  show List.intercalate ['\n'] [[], mid.data, []] = ('\n' :: mid.data) ++ ['\n']
  rw [intercalate_cons₂, intercalate_cons₂, intercalate_singleton]
  simp

/-- The joined lines of a non-empty list start with its first line. -/
theorem joinNl_cons_data (o : String) (rest : List String) :
    ∃ t, (joinNl (o :: rest)).data = o.data ++ t := by
  cases rest with
  | nil =>
    refine ⟨[], ?_⟩
    rw [joinNl_singleton]
    simp
  | cons o₂ rest₂ =>
    refine ⟨'\n' :: (joinNl (o₂ :: rest₂)).data, ?_⟩
    rw [show (o :: o₂ :: rest₂) = [o] ++ (o₂ :: rest₂) from rfl,
      joinNl_append [o] (o₂ :: rest₂) (by simp) (by simp), joinNl_singleton]
    show (o.data ++ ['\n']) ++ (joinNl (o₂ :: rest₂)).data = _
    simp

theorem trimStr_wrap (s : String) (h : trimChars s.data = s.data) :
    trimStr ("\n" ++ s ++ "\n") = s := by
  unfold trimStr
  apply String.ext
  show trimChars ('\n' :: s.data ++ ['\n']) = s.data
  rw [trimChars_wrap, h]

/-- A non-empty self-trimmed list stays self-trimmed when extended on the
right past a leading segment. -/
theorem dropWhile_append_of_ne {a b : List Char}
    (ha : a.dropWhile isWs = a) (hne : a ≠ []) :
    (a ++ b).dropWhile isWs = a ++ b := by
  rw [List.dropWhile_append, ha]
  rw [if_neg (by simpa using hne)]

/-- Joined options are self-trimmed when every option is non-empty and
self-trimmed. -/
theorem trimChars_joinNl :
    ∀ (opts : List String), opts ≠ [] →
      (∀ o ∈ opts, trimChars o.data = o.data ∧ o ≠ "") →
      trimChars (joinNl opts).data = (joinNl opts).data
  | [], h, _ => absurd rfl h
  | [o], _, h => by
    rw [joinNl_singleton]
    exact (h o (List.mem_cons_self _ _)).1
  | o :: o₂ :: rest, _, h => by
    have hrec := trimChars_joinNl (o₂ :: rest) (by simp)
      (fun x hx => h x (List.mem_cons_of_mem _ hx))
    obtain ⟨hO, hOne⟩ := h o (List.mem_cons_self _ _)
    obtain ⟨hOL, hOR⟩ := trim_parts hO
    obtain ⟨hJL, hJR⟩ := trim_parts hrec
    have hjoin : joinNl (o :: o₂ :: rest) = o ++ "\n" ++ joinNl (o₂ :: rest) := by
      rw [show (o :: o₂ :: rest) = [o] ++ (o₂ :: rest) from rfl,
        joinNl_append [o] (o₂ :: rest) (by simp) (by simp), joinNl_singleton]
    rw [hjoin]
    have hdata : (o ++ "\n" ++ joinNl (o₂ :: rest)).data =
        o.data ++ ('\n' :: (joinNl (o₂ :: rest)).data) := by
      show (o.data ++ ['\n']) ++ (joinNl (o₂ :: rest)).data = _
      simp
    rw [hdata]
    have hJne : (joinNl (o₂ :: rest)).data ≠ [] := by
      obtain ⟨t, ht⟩ := joinNl_cons_data o₂ rest
      rw [ht]
      intro hc
      exact data_ne_nil (h o₂ (by simp)).2 (List.append_eq_nil.mp hc).1
    unfold trimChars
    have hL : trimLeft (o.data ++ ('\n' :: (joinNl (o₂ :: rest)).data)) =
        o.data ++ ('\n' :: (joinNl (o₂ :: rest)).data) :=
      dropWhile_append_of_ne hOL (data_ne_nil hOne)
    rw [hL]
    unfold trimRight
    rw [List.reverse_append]
    have hrev : ('\n' :: (joinNl (o₂ :: rest)).data).reverse =
        (joinNl (o₂ :: rest)).data.reverse ++ ['\n'] := by
      simp
    rw [hrev]
    have hJrev : (joinNl (o₂ :: rest)).data.reverse.dropWhile isWs =
        (joinNl (o₂ :: rest)).data.reverse := by
      have := congrArg List.reverse hJR
      unfold trimRight at hJR
      have h₂ := congrArg List.reverse hJR
      simpa using h₂
    rw [List.append_assoc, dropWhile_append_of_ne hJrev (by simpa using hJne)]
    simp

/-- The written question file content as its full list of lines (the
writer's lines with the multi-line `context` and `question` expanded, plus
the final empty line from the trailing newline). -/
def allLines (fa : String) (r : Recipient) (ctx q : String)
    (opts : List String) : List String :=
  ["# Question from: " ++ fa, "", "## For: " ++ recToStr r, "",
    "## Context", ""] ++ splitNl ctx ++ ["", "## Question", ""] ++
    splitNl q ++
    (if opts.isEmpty then [] else ["", "## Options", ""] ++ opts) ++ [""]

theorem joinNl_expand (A D : List String) (c : String) (hA : A ≠ [])
    (hD : D ≠ []) :
    joinNl (A ++ (splitNl c ++ D)) = joinNl (A ++ ([c] ++ D)) := by
  have hne₁ : splitNl c ++ D ≠ [] := fun h =>
    splitNl_ne_nil c (List.append_eq_nil.mp h).1
  have hne₂ : [c] ++ D ≠ [] := by simp
  rw [joinNl_append A (splitNl c ++ D) hA hne₁,
    joinNl_append A ([c] ++ D) hA hne₂,
    joinNl_append (splitNl c) D (splitNl_ne_nil c) hD,
    joinNl_append [c] D (by simp) hD, joinNl_splitNl, joinNl_singleton]

theorem joinNl_snoc_empty (ls : List String) (h : ls ≠ []) :
    joinNl (ls ++ [""]) = joinNl ls ++ "\n" := by
  rw [joinNl_append ls [""] h (by simp), joinNl_singleton]
  apply String.ext
  show ((joinNl ls).data ++ ['\n']) ++ [] = (joinNl ls).data ++ ['\n']
  simp

theorem writeContent_eq_join (fa : String) (r : Recipient) (ctx q : String)
    (opts : List String) :
    writeQuestionContent fa r ctx q opts = joinNl (allLines fa r ctx q opts) := by
  by_cases hopts : opts.isEmpty = true
  · have hoptsE : opts = [] := by simpa using hopts
    subst hoptsE
    have hform : allLines fa r ctx q [] =
        ["# Question from: " ++ fa, "", "## For: " ++ recToStr r, "",
          "## Context", ""] ++ (splitNl ctx ++ (["", "## Question", ""] ++
          (splitNl q ++ [""]))) := by
      unfold allLines
      simp
    rw [hform]
    have h1 := joinNl_expand
      ["# Question from: " ++ fa, "", "## For: " ++ recToStr r, "",
        "## Context", ""]
      (["", "## Question", ""] ++ (splitNl q ++ [""])) ctx
      (by simp) (by simp)
    have h3 := joinNl_expand
      ["# Question from: " ++ fa, "", "## For: " ++ recToStr r, "",
        "## Context", "", ctx, "", "## Question", ""]
      [""] q (by simp) (by simp)
    have h5 := joinNl_snoc_empty
      ["# Question from: " ++ fa, "", "## For: " ++ recToStr r, "",
        "## Context", "", ctx, "", "## Question", "", q] (by simp)
    have hw : writeQuestionContent fa r ctx q [] =
        joinNl ["# Question from: " ++ fa, "", "## For: " ++ recToStr r, "",
          "## Context", "", ctx, "", "## Question", "", q] ++ "\n" := by
      unfold writeQuestionContent
      rfl
    rw [hw]
    exact ((h1.trans h3).trans h5).symm
  · have hform : allLines fa r ctx q opts =
        ["# Question from: " ++ fa, "", "## For: " ++ recToStr r, "",
          "## Context", ""] ++ (splitNl ctx ++ (["", "## Question", ""] ++
          (splitNl q ++ ("" :: "## Options" :: "" :: (opts ++ [""]))))) := by
      unfold allLines
      rw [if_neg hopts]
      simp [List.append_assoc]
    rw [hform]
    have h1 : joinNl (["# Question from: " ++ fa, "", "## For: " ++ recToStr r,
        "", "## Context", ""] ++ (splitNl ctx ++ (["", "## Question", ""] ++
          (splitNl q ++ ("" :: "## Options" :: "" :: (opts ++ [""])))))) =
        joinNl (["# Question from: " ++ fa, "", "## For: " ++ recToStr r, "",
          "## Context", ""] ++ ([ctx] ++ (["", "## Question", ""] ++
          (splitNl q ++ ("" :: "## Options" :: "" :: (opts ++ [""])))))) :=
      joinNl_expand
        ["# Question from: " ++ fa, "", "## For: " ++ recToStr r, "",
          "## Context", ""]
        (["", "## Question", ""] ++
          (splitNl q ++ ("" :: "## Options" :: "" :: (opts ++ [""])))) ctx
        (by simp) (by simp)
    have h3 : joinNl (["# Question from: " ++ fa, "", "## For: " ++ recToStr r,
        "", "## Context", "", ctx, "", "## Question", ""] ++
          (splitNl q ++ ("" :: "## Options" :: "" :: (opts ++ [""])))) =
        joinNl (["# Question from: " ++ fa, "", "## For: " ++ recToStr r, "",
          "## Context", "", ctx, "", "## Question", ""] ++
          ([q] ++ ("" :: "## Options" :: "" :: (opts ++ [""])))) :=
      joinNl_expand
        ["# Question from: " ++ fa, "", "## For: " ++ recToStr r, "",
          "## Context", "", ctx, "", "## Question", ""]
        ("" :: "## Options" :: "" :: (opts ++ [""])) q (by simp) (by simp)
    have h5 : joinNl ((["# Question from: " ++ fa, "", "## For: " ++ recToStr r,
        "", "## Context", "", ctx, "", "## Question", "", q] ++
          ("" :: "## Options" :: "" :: opts)) ++ [""]) =
        joinNl (["# Question from: " ++ fa, "", "## For: " ++ recToStr r, "",
          "## Context", "", ctx, "", "## Question", "", q] ++
          ("" :: "## Options" :: "" :: opts)) ++ "\n" :=
      joinNl_snoc_empty _ (by simp)
    have hw : writeQuestionContent fa r ctx q opts =
        joinNl (["# Question from: " ++ fa, "", "## For: " ++ recToStr r, "",
          "## Context", "", ctx, "", "## Question", "", q] ++
          ("" :: "## Options" :: "" :: opts)) ++ "\n" := by
      unfold writeQuestionContent
      rw [if_neg hopts]
      rfl
    rw [hw, ← h5]
    exact ((h1.trans h3)).symm

theorem parseLines_pos (fa : String) (r : Recipient) (ctx q : String)
    (hfa_t : trimChars fa.data = fa.data)
    (hctx : ∀ l ∈ splitNl ctx, ContentLine l)
    (hq : ∀ l ∈ splitNl q, ContentLine l) :
    parseLines (("# Question from: " ++ fa) :: "" ::
        ("## For: " ++ recToStr r) :: "" :: "## Context" :: "" ::
        (splitNl ctx ++ ("" :: "## Question" :: "" :: (splitNl q ++ [""])))) =
      ⟨fa, r, trimStr (joinNl ("" :: (splitNl ctx ++ [""]))),
        trimStr (joinNl ("" :: (splitNl q ++ [""]))), [], "question", []⟩ := by
  have h₁ : List.foldl step initPState
      (("# Question from: " ++ fa) :: "" :: ("## For: " ++ recToStr r) :: "" ::
        "## Context" :: "" ::
        (splitNl ctx ++ ("" :: "## Question" :: "" :: (splitNl q ++ [""])))) =
      List.foldl step { initPState with fromAgent := fa }
        ("" :: ("## For: " ++ recToStr r) :: "" :: "## Context" :: "" ::
          (splitNl ctx ++ ("" :: "## Question" :: "" ::
            (splitNl q ++ [""])))) := by
    rw [List.foldl_cons, step_from initPState fa hfa_t]
  have h₂ : List.foldl step { initPState with fromAgent := fa }
      ("" :: ("## For: " ++ recToStr r) :: "" :: "## Context" :: "" ::
        (splitNl ctx ++ ("" :: "## Question" :: "" ::
          (splitNl q ++ [""])))) =
      List.foldl step
        (⟨fa, r, "", "", [], "context", [""]⟩ : PState)
        (splitNl ctx ++ ("" :: "## Question" :: "" ::
          (splitNl q ++ [""]))) := by
    rw [List.foldl_cons, List.foldl_cons, step_for]
    rfl
  have h₃ := foldl_content (splitNl ctx)
    ("" :: "## Question" :: "" :: (splitNl q ++ [""]))
    (⟨fa, r, "", "", [], "context", [""]⟩ : PState) hctx
    (show ("context" : String) ≠ "" from by decide)
  have h₄ := foldl_content (splitNl q) [""]
    (⟨fa, r, trimStr (joinNl ("" :: (splitNl ctx ++ [""]))), "", [],
      "question", [""]⟩ : PState) hq
    (show ("question" : String) ≠ "" from by decide)
  have h₃₄ : List.foldl step
      ({ (⟨fa, r, "", "", [], "context", [""]⟩ : PState) with
        sectionContent :=
          (⟨fa, r, "", "", [], "context", [""]⟩ : PState).sectionContent ++
            splitNl ctx })
      ("" :: "## Question" :: "" :: (splitNl q ++ [""])) =
      List.foldl step
        (⟨fa, r, trimStr (joinNl ("" :: (splitNl ctx ++ [""]))), "", [],
          "question", [""]⟩ : PState) (splitNl q ++ [""]) := by
    rw [List.foldl_cons, List.foldl_cons, List.foldl_cons]
    rfl
  have h₅ : List.foldl step
      ({ (⟨fa, r, trimStr (joinNl ("" :: (splitNl ctx ++ [""]))), "", [],
          "question", [""]⟩ : PState) with
        sectionContent :=
          (⟨fa, r, trimStr (joinNl ("" :: (splitNl ctx ++ [""]))), "", [],
            "question", [""]⟩ : PState).sectionContent ++ splitNl q })
      [""] =
      (⟨fa, r, trimStr (joinNl ("" :: (splitNl ctx ++ [""]))), "",
        [], "question", "" :: (splitNl q ++ [""])⟩ : PState) := by
    rw [List.foldl_cons, List.foldl_nil]
    rfl
  have hfold := (((h₁.trans h₂).trans h₃).trans h₃₄).trans (h₄.trans h₅)
  show saveSection (List.foldl step initPState _) = _
  rw [hfold]
  rfl

theorem parseLines_neg (fa : String) (r : Recipient) (ctx q : String)
    (opts : List String)
    (hfa_t : trimChars fa.data = fa.data)
    (hctx : ∀ l ∈ splitNl ctx, ContentLine l)
    (hq : ∀ l ∈ splitNl q, ContentLine l)
    (hoptsC : ∀ o ∈ opts, ContentLine o) :
    parseLines (("# Question from: " ++ fa) :: "" ::
        ("## For: " ++ recToStr r) :: "" :: "## Context" :: "" ::
        (splitNl ctx ++ ("" :: "## Question" :: "" ::
          (splitNl q ++ ("" :: "## Options" :: "" :: (opts ++ [""])))))) =
      ⟨fa, r, trimStr (joinNl ("" :: (splitNl ctx ++ [""]))),
        trimStr (joinNl ("" :: (splitNl q ++ [""]))),
        (splitNl (trimStr (joinNl ("" :: (opts ++ [""]))))).filter
          (fun l => !(trimStr l == "")),
        "options", []⟩ := by
  have h₁ : List.foldl step initPState
      (("# Question from: " ++ fa) :: "" :: ("## For: " ++ recToStr r) :: "" ::
        "## Context" :: "" ::
        (splitNl ctx ++ ("" :: "## Question" :: "" ::
          (splitNl q ++ ("" :: "## Options" :: "" :: (opts ++ [""])))))) =
      List.foldl step { initPState with fromAgent := fa }
        ("" :: ("## For: " ++ recToStr r) :: "" :: "## Context" :: "" ::
          (splitNl ctx ++ ("" :: "## Question" :: "" ::
            (splitNl q ++ ("" :: "## Options" :: "" ::
              (opts ++ [""])))))) := by
    rw [List.foldl_cons, step_from initPState fa hfa_t]
  have h₂ : List.foldl step { initPState with fromAgent := fa }
      ("" :: ("## For: " ++ recToStr r) :: "" :: "## Context" :: "" ::
        (splitNl ctx ++ ("" :: "## Question" :: "" ::
          (splitNl q ++ ("" :: "## Options" :: "" :: (opts ++ [""])))))) =
      List.foldl step
        (⟨fa, r, "", "", [], "context", [""]⟩ : PState)
        (splitNl ctx ++ ("" :: "## Question" :: "" ::
          (splitNl q ++ ("" :: "## Options" :: "" ::
            (opts ++ [""]))))) := by
    rw [List.foldl_cons, List.foldl_cons, step_for]
    rfl
  have h₃ := foldl_content (splitNl ctx)
    ("" :: "## Question" :: "" ::
      (splitNl q ++ ("" :: "## Options" :: "" :: (opts ++ [""]))))
    (⟨fa, r, "", "", [], "context", [""]⟩ : PState) hctx
    (show ("context" : String) ≠ "" from by decide)
  have h₃₄ : List.foldl step
      ({ (⟨fa, r, "", "", [], "context", [""]⟩ : PState) with
        sectionContent :=
          (⟨fa, r, "", "", [], "context", [""]⟩ : PState).sectionContent ++
            splitNl ctx })
      ("" :: "## Question" :: "" ::
        (splitNl q ++ ("" :: "## Options" :: "" :: (opts ++ [""])))) =
      List.foldl step
        (⟨fa, r, trimStr (joinNl ("" :: (splitNl ctx ++ [""]))), "", [],
          "question", [""]⟩ : PState)
        (splitNl q ++ ("" :: "## Options" :: "" :: (opts ++ [""]))) := by
    rw [List.foldl_cons, List.foldl_cons, List.foldl_cons]
    rfl
  have h₄ := foldl_content (splitNl q)
    ("" :: "## Options" :: "" :: (opts ++ [""]))
    (⟨fa, r, trimStr (joinNl ("" :: (splitNl ctx ++ [""]))), "", [],
      "question", [""]⟩ : PState) hq
    (show ("question" : String) ≠ "" from by decide)
  have h₄₅ : List.foldl step
      ({ (⟨fa, r, trimStr (joinNl ("" :: (splitNl ctx ++ [""]))), "", [],
          "question", [""]⟩ : PState) with
        sectionContent :=
          (⟨fa, r, trimStr (joinNl ("" :: (splitNl ctx ++ [""]))), "", [],
            "question", [""]⟩ : PState).sectionContent ++ splitNl q })
      ("" :: "## Options" :: "" :: (opts ++ [""])) =
      List.foldl step
        (⟨fa, r, trimStr (joinNl ("" :: (splitNl ctx ++ [""]))),
          trimStr (joinNl ("" :: (splitNl q ++ [""]))), [],
          "options", [""]⟩ : PState) (opts ++ [""]) := by
    rw [List.foldl_cons, List.foldl_cons, List.foldl_cons]
    rfl
  have h₅ := foldl_content opts [""]
    (⟨fa, r, trimStr (joinNl ("" :: (splitNl ctx ++ [""]))),
      trimStr (joinNl ("" :: (splitNl q ++ [""]))), [],
      "options", [""]⟩ : PState) hoptsC
    (show ("options" : String) ≠ "" from by decide)
  have h₆ : List.foldl step
      ({ (⟨fa, r, trimStr (joinNl ("" :: (splitNl ctx ++ [""]))),
          trimStr (joinNl ("" :: (splitNl q ++ [""]))), [],
          "options", [""]⟩ : PState) with
        sectionContent :=
          (⟨fa, r, trimStr (joinNl ("" :: (splitNl ctx ++ [""]))),
            trimStr (joinNl ("" :: (splitNl q ++ [""]))), [],
            "options", [""]⟩ : PState).sectionContent ++ opts })
      [""] =
      (⟨fa, r, trimStr (joinNl ("" :: (splitNl ctx ++ [""]))),
        trimStr (joinNl ("" :: (splitNl q ++ [""]))), [],
        "options", "" :: (opts ++ [""])⟩ : PState) := by
    rw [List.foldl_cons, List.foldl_nil]
    rfl
  have hfold :=
    ((((h₁.trans h₂).trans h₃).trans h₃₄).trans (h₄.trans h₄₅)).trans
      (h₅.trans h₆)
  show saveSection (List.foldl step initPState _) = _
  rw [hfold]
  rfl

theorem no_nl_allLines (fa : String) (r : Recipient) (ctx q : String)
    (opts : List String) (hfa : '\n' ∉ fa.data)
    (hopts : ∀ o ∈ opts, '\n' ∉ o.data) :
    ∀ l ∈ allLines fa r ctx q opts, '\n' ∉ l.data := by
  have hL1 : '\n' ∉ ("# Question from: " ++ fa).data := by
    show '\n' ∉ "# Question from: ".data ++ fa.data
    intro hc
    rcases List.mem_append.mp hc with h | h
    · exact absurd h (by decide)
    · exact hfa h
  have hL3 : '\n' ∉ ("## For: " ++ recToStr r).data := by
    cases r <;> exact (by decide)
  intro l hl
  unfold allLines at hl
  by_cases ho : opts.isEmpty = true
  · rw [if_pos ho] at hl
    simp only [List.append_nil] at hl
    rcases List.mem_append.mp hl with h | h
    · rcases List.mem_append.mp h with h | h
      · rcases List.mem_append.mp h with h | h
        · rcases List.mem_append.mp h with h | h
          · simp only [List.mem_cons, List.not_mem_nil, or_false] at h
            rcases h with rfl | rfl | rfl | rfl | rfl | rfl
            · exact hL1
            · exact (by decide)
            · exact hL3
            · exact (by decide)
            · exact (by decide)
            · exact (by decide)
          · exact mem_splitNl_no_nl l h
        · simp only [List.mem_cons, List.not_mem_nil, or_false] at h
          rcases h with rfl | rfl | rfl
          · exact (by decide)
          · exact (by decide)
          · exact (by decide)
      · exact mem_splitNl_no_nl l h
    · simp only [List.mem_cons, List.not_mem_nil, or_false] at h
      rw [h]
      exact (by decide)
  · rw [if_neg ho] at hl
    rcases List.mem_append.mp hl with h | h
    · rcases List.mem_append.mp h with h | h
      · rcases List.mem_append.mp h with h | h
        · rcases List.mem_append.mp h with h | h
          · rcases List.mem_append.mp h with h | h
            · simp only [List.mem_cons, List.not_mem_nil, or_false] at h
              rcases h with rfl | rfl | rfl | rfl | rfl | rfl
              · exact hL1
              · exact (by decide)
              · exact hL3
              · exact (by decide)
              · exact (by decide)
              · exact (by decide)
            · exact mem_splitNl_no_nl l h
          · simp only [List.mem_cons, List.not_mem_nil, or_false] at h
            rcases h with rfl | rfl | rfl
            · exact (by decide)
            · exact (by decide)
            · exact (by decide)
        · exact mem_splitNl_no_nl l h
      · rcases List.mem_append.mp h with h | h
        · simp only [List.mem_cons, List.not_mem_nil, or_false] at h
          rcases h with rfl | rfl | rfl
          · exact (by decide)
          · exact (by decide)
          · exact (by decide)
        · exact hopts l h
    · simp only [List.mem_cons, List.not_mem_nil, or_false] at h
      rw [h]
      exact (by decide)

theorem allLines_ne_nil (fa : String) (r : Recipient) (ctx q : String)
    (opts : List String) : allLines fa r ctx q opts ≠ [] := by
  unfold allLines
  simp

theorem splitNl_writeContent (fa : String) (r : Recipient) (ctx q : String)
    (opts : List String) (hfa : '\n' ∉ fa.data)
    (hopts : ∀ o ∈ opts, '\n' ∉ o.data) :
    splitNl (writeQuestionContent fa r ctx q opts) =
      allLines fa r ctx q opts := by
  rw [writeContent_eq_join]
  exact splitNl_joinNl _ (no_nl_allLines fa r ctx q opts hfa hopts)
    (allLines_ne_nil fa r ctx q opts)

/-- The value a section flush recovers: an empty first line, the section body,
and the empty line before the next header trim back to the body itself. -/
theorem section_text (s : String) (h : trimChars s.data = s.data) :
    trimStr (joinNl ("" :: (splitNl s ++ [""]))) = s := by
  have h1 := joinNl_expand [""] [""] s (by simp) (by simp)
  have h2 : joinNl ([""] ++ ([s] ++ [""])) = "\n" ++ s ++ "\n" := by
    have := joinNl_wrap s
    exact this
  have hj : joinNl ("" :: (splitNl s ++ [""])) = "\n" ++ s ++ "\n" :=
    h1.trans h2
  rw [hj]
  exact trimStr_wrap s h

/-- The options flush recovers exactly the written options when each is
non-empty, self-trimmed and newline-free. -/
theorem options_flush (opts : List String) (hne : opts ≠ [])
    (hgood : ∀ o ∈ opts,
      trimChars o.data = o.data ∧ o ≠ "" ∧ '\n' ∉ o.data) :
    (splitNl (trimStr (joinNl ("" :: (opts ++ [""]))))).filter
      (fun l => !(trimStr l == "")) = opts := by
  have hj : joinNl ("" :: (opts ++ [""])) = "\n" ++ joinNl opts ++ "\n" := by
    rw [show ("" :: (opts ++ [""])) = [""] ++ (opts ++ [""]) from rfl,
      joinNl_append [""] (opts ++ [""]) (by simp) (by simp),
      joinNl_append opts [""] hne (by simp), joinNl_singleton]
    apply String.ext
    show ([] ++ ['\n']) ++ (((joinNl opts).data ++ ['\n']) ++ []) =
      ('\n' :: (joinNl opts).data) ++ ['\n']
    simp
  rw [hj, trimStr_wrap (joinNl opts)
    (trimChars_joinNl opts hne (fun o hO => ⟨(hgood o hO).1, (hgood o hO).2.1⟩))]
  rw [splitNl_joinNl opts (fun o hO => (hgood o hO).2.2) hne]
  apply List.filter_eq_self.mpr
  intro o hO
  have ht : trimStr o = o := String.ext (hgood o hO).1
  rw [ht]
  simp only [Bool.not_eq_eq_eq_not, Bool.not_true, beq_eq_false_iff_ne]
  exact (hgood o hO).2.1

theorem pq_fromAgent (f c : String) :
    (parseQuestionFile f c).fromAgent = (parseLines (splitNl c)).fromAgent := rfl

theorem pq_forRecipient (f c : String) :
    (parseQuestionFile f c).forRecipient =
      (parseLines (splitNl c)).forRecipient := rfl

theorem pq_context (f c : String) :
    (parseQuestionFile f c).context = (parseLines (splitNl c)).context := rfl

theorem pq_question (f c : String) :
    (parseQuestionFile f c).question = (parseLines (splitNl c)).question := rfl

theorem pq_options (f c : String) :
    (parseQuestionFile f c).options = (parseLines (splitNl c)).options := rfl

/-- C5: writing a question file with `writeQuestionFile` and parsing the
written content back with `parseQuestionFile` recovers the written
`fromAgent`, `forRecipient`, `context`, `question` and `options`, provided
the written values survive the parser's normalisation: `fromAgent` is
newline-free and self-trimmed, `context` and `question` are self-trimmed
and none of their lines looks like a `# Question from:` or `##` header
line, and every option is non-empty, self-trimmed, newline-free and not
header-like. (The unconditional claim fails: see the counterexample.) -/
theorem c5_write_parse_roundtrip (filePath fa : String) (r : Recipient)
    (ctx q : String) (opts : List String)
    (hfa_t : trimChars fa.data = fa.data) (hfa_nl : '\n' ∉ fa.data)
    (hctx_t : trimChars ctx.data = ctx.data)
    (hctx_l : ∀ l ∈ splitNl ctx,
      matchFrom l = none ∧ strStarts l "##" = false)
    (hq_t : trimChars q.data = q.data)
    (hq_l : ∀ l ∈ splitNl q,
      matchFrom l = none ∧ strStarts l "##" = false)
    (hopts : ∀ o ∈ opts, trimChars o.data = o.data ∧ o ≠ "" ∧
      '\n' ∉ o.data ∧ matchFrom o = none ∧ strStarts o "##" = false) :
    (parseQuestionFile filePath
      (writeQuestionContent fa r ctx q opts)).fromAgent = fa ∧
    (parseQuestionFile filePath
      (writeQuestionContent fa r ctx q opts)).forRecipient = r ∧
    (parseQuestionFile filePath
      (writeQuestionContent fa r ctx q opts)).context = ctx ∧
    (parseQuestionFile filePath
      (writeQuestionContent fa r ctx q opts)).question = q ∧
    (parseQuestionFile filePath
      (writeQuestionContent fa r ctx q opts)).options = opts := by
  have hsplit := splitNl_writeContent fa r ctx q opts hfa_nl
    (fun o hO => (hopts o hO).2.2.1)
  by_cases ho : opts.isEmpty = true
  · have hoE : opts = [] := by simpa using ho
    subst hoE
    have hform : allLines fa r ctx q [] =
        ("# Question from: " ++ fa) :: "" ::
          ("## For: " ++ recToStr r) :: "" :: "## Context" :: "" ::
          (splitNl ctx ++ ("" :: "## Question" :: "" ::
            (splitNl q ++ [""]))) := by
      unfold allLines
      simp
    have hkey : parseLines (splitNl (writeQuestionContent fa r ctx q [])) =
        ⟨fa, r, trimStr (joinNl ("" :: (splitNl ctx ++ [""]))),
          trimStr (joinNl ("" :: (splitNl q ++ [""]))), [],
          "question", []⟩ := by
      rw [hsplit, hform]
      exact parseLines_pos fa r ctx q hfa_t
        (fun l hl => contentLine_of (hctx_l l hl).1 (hctx_l l hl).2)
        (fun l hl => contentLine_of (hq_l l hl).1 (hq_l l hl).2)
    refine ⟨?_, ?_, ?_, ?_, ?_⟩
    · rw [pq_fromAgent, hkey]
    · rw [pq_forRecipient, hkey]
    · rw [pq_context, hkey]
      exact section_text ctx hctx_t
    · rw [pq_question, hkey]
      exact section_text q hq_t
    · rw [pq_options, hkey]
  · have hne : opts ≠ [] := by simpa using ho
    have hform : allLines fa r ctx q opts =
        ("# Question from: " ++ fa) :: "" ::
          ("## For: " ++ recToStr r) :: "" :: "## Context" :: "" ::
          (splitNl ctx ++ ("" :: "## Question" :: "" ::
            (splitNl q ++ ("" :: "## Options" :: "" ::
              (opts ++ [""]))))) := by
      unfold allLines
      rw [if_neg ho]
      simp [List.append_assoc]
    have hkey : parseLines (splitNl (writeQuestionContent fa r ctx q opts)) =
        ⟨fa, r, trimStr (joinNl ("" :: (splitNl ctx ++ [""]))),
          trimStr (joinNl ("" :: (splitNl q ++ [""]))),
          (splitNl (trimStr (joinNl ("" :: (opts ++ [""]))))).filter
            (fun l => !(trimStr l == "")),
          "options", []⟩ := by
      rw [hsplit, hform]
      exact parseLines_neg fa r ctx q opts hfa_t
        (fun l hl => contentLine_of (hctx_l l hl).1 (hctx_l l hl).2)
        (fun l hl => contentLine_of (hq_l l hl).1 (hq_l l hl).2)
        (fun o hO => contentLine_of (hopts o hO).2.2.2.1 (hopts o hO).2.2.2.2)
    refine ⟨?_, ?_, ?_, ?_, ?_⟩
    · rw [pq_fromAgent, hkey]
    · rw [pq_forRecipient, hkey]
    · rw [pq_context, hkey]
      exact section_text ctx hctx_t
    · rw [pq_question, hkey]
      exact section_text q hq_t
    · rw [pq_options, hkey]
      exact options_flush opts hne
        (fun o hO => ⟨(hopts o hO).1, (hopts o hO).2.1, (hopts o hO).2.2.1⟩)

/-- C5 counterexample to the unconditional claim: writing
`fromAgent = "a "` (trailing space) and parsing the written content back
yields `fromAgent = "a"`, because `parseQuestionFile` trims the captured
group of `# Question from:`; so not every written tuple is recovered. -/
theorem c5_roundtrip_counterexample :
    (parseQuestionFile "q-001.md"
      (writeQuestionContent "a " .user "" "" [])).fromAgent = "a" ∧
    ("a" : String) ≠ "a " := by
  constructor
  · rfl
  · decide

theorem c5_write_parse_roundtrip_witness :
    (parseQuestionFile "q-1.md"
      (writeQuestionContent "dev-auth" .po "Some context" "Which one?"
        ["A", "B"])).fromAgent = "dev-auth" ∧
    (parseQuestionFile "q-1.md"
      (writeQuestionContent "dev-auth" .po "Some context" "Which one?"
        ["A", "B"])).forRecipient = .po ∧
    (parseQuestionFile "q-1.md"
      (writeQuestionContent "dev-auth" .po "Some context" "Which one?"
        ["A", "B"])).context = "Some context" ∧
    (parseQuestionFile "q-1.md"
      (writeQuestionContent "dev-auth" .po "Some context" "Which one?"
        ["A", "B"])).question = "Which one?" ∧
    (parseQuestionFile "q-1.md"
      (writeQuestionContent "dev-auth" .po "Some context" "Which one?"
        ["A", "B"])).options = ["A", "B"] :=
  c5_write_parse_roundtrip "q-1.md" "dev-auth" .po "Some context"
    "Which one?" ["A", "B"] (by decide) (by decide) (by decide) (by decide)
    (by decide) (by decide) (by decide)

theorem saveSection_question {st : PState} (h : st.currentSection ≠ "question") :
    (saveSection st).question = st.question := by
  simp only [saveSection]
  split
  · rfl
  · split
    · rfl
    · rfl

theorem step_no_question {st : PState} {l : String}
    (hP : st.question = "" ∧ st.currentSection ≠ "question")
    (hl : ∀ name ∈ matchSection l, sectionFor name ≠ "question") :
    (step st l).question = "" ∧ (step st l).currentSection ≠ "question" := by
  unfold step
  cases hm : matchFrom l with
  | some fa => exact ⟨hP.1, hP.2⟩
  | none =>
    cases hf : matchFor l with
    | some r => exact ⟨hP.1, hP.2⟩
    | none =>
      cases hs : matchSection l with
      | some name =>
        refine ⟨?_, ?_⟩
        · show (saveSection st).question = ""
          rw [saveSection_question hP.2]
          exact hP.1
        · exact hl name hs
      | none =>
        by_cases hc : st.currentSection = ""
        · rw [if_neg (fun hx => hx hc)]
          exact hP
        · rw [if_pos hc]
          exact ⟨hP.1, hP.2⟩

theorem foldl_no_question (ls : List String) (st : PState)
    (hP : st.question = "" ∧ st.currentSection ≠ "question")
    (hls : ∀ l ∈ ls, ∀ name ∈ matchSection l, sectionFor name ≠ "question") :
    (List.foldl step st ls).question = "" ∧
    (List.foldl step st ls).currentSection ≠ "question" := by
  induction ls generalizing st with
  | nil => exact hP
  | cons l ls ih =>
    rw [List.foldl_cons]
    exact ih (step st l)
      (step_no_question hP (hls l (List.mem_cons_self _ _)))
      (fun x hx => hls x (List.mem_cons_of_mem _ hx))

/-- C6: `parseQuestionFile` tolerates malformed content without failing
(the line scan is total): if no line's `##` header selects the question
section, the parsed question is the empty string rather than an error; an
unrecognized `## For: bogus_value` value defaults `forRecipient` to
`user`; and an unknown `## Notes` section is skipped with its body
discarded (it reaches neither `context`, `question` nor `options`). -/
theorem c6_malformed_question_file (f content : String)
    (hnoq : ∀ l ∈ splitNl content,
      ∀ name ∈ matchSection l, sectionFor name ≠ "question") :
    (parseQuestionFile f content).question = "" ∧
    (parseQuestionFile "q.md"
      "# Question from: dev\n\n## For: bogus_value\n\n## Question\n\nWhat?\n").forRecipient
      = .user ∧
    (parseQuestionFile "q.md"
      "## Notes\nsecret body\n\n## Question\n\nWhat?\n").fromAgent = "" ∧
    (parseQuestionFile "q.md"
      "## Notes\nsecret body\n\n## Question\n\nWhat?\n").context = "" ∧
    (parseQuestionFile "q.md"
      "## Notes\nsecret body\n\n## Question\n\nWhat?\n").question = "What?" ∧
    (parseQuestionFile "q.md"
      "## Notes\nsecret body\n\n## Question\n\nWhat?\n").options = [] := by
  refine ⟨?_, by decide, by decide, by decide, by decide, by decide⟩
  rw [pq_question]
  have hX := foldl_no_question (splitNl content) initPState
    ⟨rfl, by decide⟩ hnoq
  show (saveSection (List.foldl step initPState (splitNl content))).question = ""
  rw [saveSection_question hX.2]
  exact hX.1

theorem c6_malformed_question_file_witness :
    (parseQuestionFile "q.md" "## Notes\nstuff\n").question = "" ∧
    (parseQuestionFile "q.md"
      "# Question from: dev\n\n## For: bogus_value\n\n## Question\n\nWhat?\n").forRecipient
      = .user ∧
    (parseQuestionFile "q.md"
      "## Notes\nsecret body\n\n## Question\n\nWhat?\n").fromAgent = "" ∧
    (parseQuestionFile "q.md"
      "## Notes\nsecret body\n\n## Question\n\nWhat?\n").context = "" ∧
    (parseQuestionFile "q.md"
      "## Notes\nsecret body\n\n## Question\n\nWhat?\n").question = "What?" ∧
    (parseQuestionFile "q.md"
      "## Notes\nsecret body\n\n## Question\n\nWhat?\n").options = [] :=
  c6_malformed_question_file "q.md" "## Notes\nstuff\n" (by decide)

end Orch
